import Mathlib

/-!
# Verification of the tds-data-analyst-agent core (`app/analysis.py`)

Shallow embedding of the repository's core logic:

* `_normalize_df`   (app/analysis.py lines 12-46) : column normalizer,
* `answer_questions` (app/analysis.py lines 49-140) : question segmentation,
  keyword dispatch, statistical answerers and the scatter-plot branch.

Modelling conventions:

* pandas cells are modelled by `Cell` (a text cell, an exact rational number
  standing for a Python float, or the missing value NaN);
* a `DataFrame` is a list of named columns (`DF`);
* Python floats are idealized as exact rationals `ℚ`; the Pearson
  correlation value, which involves a square root, lives in `ℝ`;
* fallible Python code is embedded in `Except String`, and the number of
  matplotlib figures left open (opened but never closed) is threaded
  explicitly so that resource-release claims are statable;
* the PNG rasterization performed by matplotlib's `savefig` is opaque to the
  program logic, so the renderer is a parameter `png : PlotSpec → List Nat`
  (a byte list); every theorem quantifies over it.
-/

namespace TdsAgent

/-! ## Python string primitives -/

/-- Whitespace as recognized by Python's `str.strip` / `\s` (ASCII part). -/
def isPySpace (c : Char) : Bool :=
  c = ' ' || c = '\t' || c = '\n' || c = '\r' || c = '\x0b' || c = '\x0c'

/-- Remove leading whitespace (`str.lstrip`). -/
def trimStart (cs : List Char) : List Char := cs.dropWhile isPySpace

/-- Remove trailing whitespace (`str.rstrip`). -/
def trimEnd (cs : List Char) : List Char :=
  (cs.reverse.dropWhile isPySpace).reverse

/-- Python `str.strip` on a character list. -/
def pyStripL (cs : List Char) : List Char := trimEnd (trimStart cs)

/-- Python `str.strip`. -/
def pyStrip (s : String) : String := ⟨pyStripL s.data⟩

/-- Python `str.lower` (ASCII). -/
def pyLower (s : String) : String := ⟨s.data.map Char.toLower⟩

/-- Helper for `str.splitlines`: accumulates the current line (reversed). -/
def splitLinesAux : List Char → List Char → List (List Char)
  | [], cur => [cur.reverse]
  | '\r' :: '\n' :: rest, cur =>
      cur.reverse :: (match rest with | [] => [] | _ :: _ => splitLinesAux rest [])
  | '\n' :: rest, cur =>
      cur.reverse :: (match rest with | [] => [] | _ :: _ => splitLinesAux rest [])
  | '\r' :: rest, cur =>
      cur.reverse :: (match rest with | [] => [] | _ :: _ => splitLinesAux rest [])
  | c :: rest, cur => splitLinesAux rest (c :: cur)

/-- Python `str.splitlines` (modelling the `\n`, `\r\n` and `\r` terminators;
the exotic Unicode terminators do not occur in the questions handled here). -/
def pySplitlines (s : String) : List String :=
  match s.data with
  | [] => []
  | cs => (splitLinesAux cs []).map (fun l => ⟨l⟩)

/-- `p` is a leading subsequence of `s` (character-wise). -/
def startsWithSeq : List Char → List Char → Bool
  | _, [] => true
  | [], _ :: _ => false
  | c :: cs, p :: ps => c = p && startsWithSeq cs ps

/-- Python's `pat in s` substring test, on character lists. -/
def hasSubSeq (pat : List Char) : List Char → Bool
  | [] => pat.isEmpty
  | c :: rest => startsWithSeq (c :: rest) pat || hasSubSeq pat rest

/-- Python's `pat in s` substring test on strings. -/
def strContains (s pat : String) : Bool := hasSubSeq pat.data s.data

/-! ## Numeric parsing (Python `float`, `pd.to_numeric`) -/

/-- Numeric value of the decimal digit string `cs` (most significant first). -/
def natOfDigits (cs : List Char) : ℕ :=
  cs.foldl (fun acc c => acc * 10 + (c.toNat - 48)) 0

/-- Value of the digit string `cs` read as a decimal fraction `0.cs`. -/
def fracOfDigits (cs : List Char) : ℚ :=
  (natOfDigits cs : ℚ) / (10 : ℚ) ^ cs.length

/-- Python `float()` restricted to strings made of digits and dots (the only
alphabet that can reach it in `parse_gross`): an optional integer part, an
optional single dot, an optional fractional part, at least one digit. -/
def pyFloat? (cs : List Char) : Option ℚ :=
  let intD := cs.takeWhile Char.isDigit
  match cs.dropWhile Char.isDigit with
  | [] => if intD.isEmpty then none else some (natOfDigits intD)
  | r :: rest =>
      if r = '.' ∧ rest.all Char.isDigit = true ∧ ¬(intD = [] ∧ rest = []) then
        some ((natOfDigits intD : ℚ) + fracOfDigits rest)
      else none

/-! ## Cells and data frames -/

/-- A pandas cell: raw text, a numeric value (Python float/int idealized as an
exact rational), or the missing value NaN. -/
inductive Cell where
  | str (s : String)
  | num (q : ℚ)
  | nan
  deriving DecidableEq

/-- Decimal rendering of a nonnegative rational that is exactly representable
with `k ≤ 20` decimal places; used by `floatRepr`. -/
def decimalReprNN (q : ℚ) : String :=
  match (List.range 21).find? (fun k => ((q * (10 : ℚ) ^ k).den = 1 : Bool)) with
  | some 0 => toString q.num ++ ".0"
  | some k =>
      let n := (q * (10 : ℚ) ^ k).num.toNat
      let digits := toString n
      let digits := String.mk (List.replicate (k + 1 - digits.length) '0') ++ digits
      let cut := digits.length - k
      String.mk (digits.data.take cut) ++ "." ++ String.mk (digits.data.drop cut)
  | none => toString q.num ++ "/" ++ toString q.den

/-- Python `str()` of a numeric cell value (idealized: exact decimal
representation when one exists; the fallback never matters to any theorem
below because `str` is only ever applied to textual `Gross` cells or cancels
between the program and the specification side). -/
def floatRepr (q : ℚ) : String :=
  if q < 0 then "-" ++ decimalReprNN (-q) else decimalReprNN q

/-- Python `str(x)` for a cell (`str(np.nan)` is `"nan"`). -/
def pyStr (x : Cell) : String :=
  match x with
  | .str s => s
  | .num q => floatRepr q
  | .nan => "nan"

/-- `parse_gross` (analysis.py lines 29-38): keep only digits, dots and
commas, drop the commas, parse as float and divide by 1e9; `NaN` on failure. -/
def parse_gross (x : Cell) : Cell :=
  let s := (pyStr x).data
  let s := s.filter (fun c => c.isDigit || c = '.' || c = ',')
  let s := s.filter (fun c => c ≠ ',')
  match pyFloat? s with
  | some v => .num (v / 1000000000)
  | none => .nan

/-- `pd.to_numeric(·, errors="coerce")` on one cell: numbers and NaN pass
through, text is parsed (optional sign, digits, optional fraction; the
scientific notation accepted by pandas never occurs in these tables and is
modelled as unparseable), anything else becomes NaN. -/
def toNumericCell (x : Cell) : Cell :=
  match x with
  | .num q => .num q
  | .nan => .nan
  | .str s =>
      let t := pyStripL s.data
      match t with
      | '-' :: rest => (match pyFloat? rest with
          | some v => .num (-v)
          | none => .nan)
      | '+' :: rest => (match pyFloat? rest with
          | some v => .num v
          | none => .nan)
      | u => (match pyFloat? u with
          | some v => .num v
          | none => .nan)

/-- A pandas DataFrame: an ordered list of named columns. -/
structure DF where
  cols : List (String × List Cell)
  deriving DecidableEq

/-- Number of rows (pandas data frames are rectangular; the length of the
first column, as used by the `df.empty` test). -/
def DF.nRows (d : DF) : ℕ :=
  match d.cols with
  | [] => 0
  | c :: _ => c.2.length

/-- Rectangularity: every column has the same length. Always true of a real
pandas DataFrame; a hypothesis where theorems need it. -/
def DF.uniform (d : DF) : Prop := ∀ c ∈ d.cols, c.2.length = d.nRows

instance (d : DF) : Decidable d.uniform := by
  unfold DF.uniform; infer_instance

/-- `df.empty`: no columns or no rows. -/
def DF.emptyDF (d : DF) : Bool := d.cols.isEmpty || d.nRows = 0

/-- Is there a column with this exact name? (`name in df.columns`). -/
def DF.hasName (d : DF) (n : String) : Bool := d.cols.any (fun c => c.1 = n)

/-- Cells of the first column with this name (`df[name]`). -/
def DF.getCol? (d : DF) (n : String) : Option (List Cell) :=
  (d.cols.find? (fun c => c.1 = n)).map (·.2)

/-- `df[name] = cells`: replace the cells of every column with that name, or
append a new column at the end. -/
def DF.setCol (d : DF) (n : String) (cells : List Cell) : DF :=
  if d.hasName n then
    ⟨d.cols.map (fun c => if c.1 = n then (c.1, cells) else c)⟩
  else ⟨d.cols ++ [(n, cells)]⟩

/-! ## The column normalizer `_normalize_df` (analysis.py lines 12-46) -/

/-- Line 19: `out.columns = [str(c).strip() for c in out.columns]`. -/
def stripNames (d : DF) : DF :=
  ⟨d.cols.map (fun c => (pyStrip c.1, c.2))⟩

/-- Line 22: the fixed priority list of gross-revenue column aliases. -/
def gross_aliases : List String :=
  ["Gross", "Worldwide gross", "Worldwide Gross", "Worldwide box office"]

/-- `df.rename(columns={old: new})`: renames every column named `old`. -/
def renameCols (d : DF) (old new : String) : DF :=
  ⟨d.cols.map (fun c => if c.1 = old then (new, c.2) else c)⟩

/-- Lines 23-25: find the first alias present; rename it to `Gross` unless a
`Gross` column already exists. -/
def aliasGross (d : DF) : DF :=
  match gross_aliases.find? (fun a => d.hasName a) with
  | some g => if d.hasName "Gross" then d else renameCols d g "Gross"
  | none => d

/-- Lines 28-39: if a `Gross` column exists, derive `GrossNum` by applying
`parse_gross` to each of its cells. -/
def deriveGrossNum (d : DF) : DF :=
  match d.getCol? "Gross" with
  | some gl => d.setCol "GrossNum" (gl.map parse_gross)
  | none => d

/-- Lines 42-44: coerce `Year`, `Rank`, `Peak` to numeric where present. -/
def coerceYRP (d : DF) : DF :=
  ⟨d.cols.map (fun c =>
    if c.1 = "Year" || c.1 = "Rank" || c.1 = "Peak" then
      (c.1, c.2.map toNumericCell)
    else c)⟩

/-- The body of `_normalize_df` once the empty-input guard has passed,
operating on the copy `out` of the caller's frame. -/
def normalizeSteps (d : DF) : DF :=
  coerceYRP (deriveGrossNum (aliasGross (stripNames d)))

/-- `_normalize_df` (analysis.py lines 12-46). -/
def _normalize_df (df : Option DF) : Option DF :=
  match df with
  | none => none
  | some d => if d.emptyDF then none else some (normalizeSteps d)

/-- The caller-visible frame of a `_normalize_df` call: the function receives
the caller's binding `df`, immediately guards, copies it into `out`
(line 17) and from then on writes only to `out`; the pair returned here is
(the caller's table after the call, the returned table). -/
def normalizeFrame (df : Option DF) : Option DF × Option DF :=
  match df with
  | none => (none, none)
  | some d =>
      if d.emptyDF then (some d, none)
      else
        let out := d      -- out = df.copy()
        (some d, some (normalizeSteps out))
/-! ## The scatter-plot branch: base64, truncation, linear regression -/

/-- Standard base64 alphabet. -/
def b64Alphabet : List Char :=
  "ABCDEFGHIJKLMNOPQRSTUVWXYZabcdefghijklmnopqrstuvwxyz0123456789+/".data

/-- Character for a 6-bit group. -/
def b64Char (n : ℕ) : Char := b64Alphabet.getD (n % 64) 'A'

/-- `base64.b64encode` on a byte list (each byte taken mod 256). -/
def b64encode : List ℕ → List Char
  | [] => []
  | [a] =>
      let a := a % 256
      [b64Char (a / 4), b64Char (a % 4 * 16), '=', '=']
  | [a, b] =>
      let a := a % 256; let b := b % 256
      [b64Char (a / 4), b64Char (a % 4 * 16 + b / 16), b64Char (b % 16 * 4), '=']
  | a :: b :: c :: rest =>
      let a := a % 256; let b := b % 256; let c := c % 256
      b64Char (a / 4) :: b64Char (a % 4 * 16 + b / 16) ::
        b64Char (b % 16 * 4 + c / 64) :: b64Char (c % 64) :: b64encode rest

/-- Lines 131-133: `if len(data_uri) > 100_000: data_uri = data_uri[:100_000]`. -/
def truncateUri (s : String) : String :=
  if 100000 < s.data.length then ⟨s.data.take 100000⟩ else s

/-- What the figure drawn by the scatter branch contains: the points, the
regression line's slope and intercept when they are finite (`none` models the
NaN slope/intercept produced on a single data point), and the axis labels. -/
structure PlotSpec where
  points : List (ℚ × ℚ)
  trend : Option (ℚ × ℚ)
  xlabel : String
  ylabel : String

/-- Sum of a list of rationals. -/
def sumQ (l : List ℚ) : ℚ := l.foldr (· + ·) 0

/-- All elements equal (`np.amax(x) == np.amin(x)` for a nonempty list). -/
def allEqQ : List ℚ → Bool
  | [] => true
  | x :: xs => xs.all (fun y => y = x)

/-- `n·Σx² − (Σx)²`, the scaled variance numerator; zero iff all `x` equal. -/
def varNum (xs : List ℚ) : ℚ :=
  (xs.length : ℚ) * sumQ (xs.map (fun x => x * x)) - sumQ xs * sumQ xs

/-- `n·Σxy − Σx·Σy`, the scaled covariance numerator. -/
def covNum (xs ys : List ℚ) : ℚ :=
  (xs.length : ℚ) * sumQ (List.zipWith (· * ·) xs ys) - sumQ xs * sumQ ys

/-- `scipy.stats.linregress(x, y)` restricted to what the scatter branch can
observe: raises `ValueError` when `len(x) > 1` and all `x` are identical;
yields NaN slope and intercept (`none`) when the variance vanishes otherwise
(the single-point case); else the ordinary-least-squares slope and
intercept. -/
def linregressE (xs ys : List ℚ) : Except String (Option (ℚ × ℚ)) :=
  if 1 < xs.length && allEqQ xs then
    .error "Cannot calculate a linear regression if all x values are identical"
  else if allEqQ xs then
    -- then `xs` is a single point (the empty case cannot reach this code and
    -- the longer all-equal case raised above): `ssxm = 0`, NaN slope/intercept
    .ok none
  else
    let slope := covNum xs ys / varNum xs
    let intercept := (sumQ ys - slope * sumQ xs) / (xs.length : ℚ)
    .ok (some (slope, intercept))

/-! ## Pearson correlation (`Series.corr`) and rounding -/

/-- Numeric value of a cell, defaulting to 0 (only applied to `num` cells
under the theorems' numeric-column hypotheses). -/
def cellQ (x : Cell) : ℚ :=
  match x with
  | .num q => q
  | _ => 0

/-- A cell is missing (`NaN`), as tested by `dropna`. -/
def cellIsNa (x : Cell) : Bool :=
  match x with
  | .nan => true
  | _ => false

/-- `ndf[["Rank", "Peak"]].dropna()` as a list of rational pairs. -/
def subPairs (rk pk : List Cell) : List (ℚ × ℚ) :=
  ((List.zip rk pk).filter
    (fun p => !(cellIsNa p.1) && !(cellIsNa p.2))).map
    (fun p => (cellQ p.1, cellQ p.2))

/-- Mean of the first components. -/
def meanFst (ps : List (ℚ × ℚ)) : ℚ := sumQ (ps.map (·.1)) / (ps.length : ℚ)

/-- Mean of the second components. -/
def meanSnd (ps : List (ℚ × ℚ)) : ℚ := sumQ (ps.map (·.2)) / (ps.length : ℚ)

/-- Centered sum `Σ (x − x̄)(y − ȳ)`. -/
def sxy (ps : List (ℚ × ℚ)) : ℚ :=
  sumQ (ps.map (fun p => (p.1 - meanFst ps) * (p.2 - meanSnd ps)))

/-- Centered sum `Σ (x − x̄)²`. -/
def sxx (ps : List (ℚ × ℚ)) : ℚ :=
  sumQ (ps.map (fun p => (p.1 - meanFst ps) * (p.1 - meanFst ps)))

/-- Centered sum `Σ (y − ȳ)²`. -/
def syy (ps : List (ℚ × ℚ)) : ℚ :=
  sumQ (ps.map (fun p => (p.2 - meanSnd ps) * (p.2 - meanSnd ps)))

/-- `sub["Rank"].corr(sub["Peak"])` (pandas Pearson correlation):
`Σ(x−x̄)(y−ȳ) / (√Σ(x−x̄)² · √Σ(y−ȳ)²)`, NaN (`none`) when the denominator
vanishes — zero variance in either column, including the single-row case. -/
noncomputable def seriesCorr (ps : List (ℚ × ℚ)) : Option ℝ :=
  if sxx ps * syy ps = 0 then none
  else some ((sxy ps : ℝ) / (Real.sqrt (sxx ps) * Real.sqrt (syy ps)))

/-- Python `round(x, 6)` idealized on exact reals: round to the nearest
multiple of `10⁻⁶`. -/
noncomputable def round6 (x : ℝ) : ℝ := (round (x * 1000000) : ℤ) / 1000000

/-! ## The dispatcher and the answerers (analysis.py lines 49-140) -/

/-- One answer: an integer count, a text answer (titles, images, sentinel), or
a float (the correlation). -/
inductive Answer where
  | aint (n : ℤ)
  | astr (s : String)
  | afloat (x : ℝ)

/-- The dispatch outcome: which `if`/`elif` branch of the question loop
fires. -/
inductive RuleTag where
  | count
  | earliest
  | corr
  | plot
  | sentinel
  deriving DecidableEq

/-- The `if`/`elif` chain on `q_lower` (lines 69, 77, 89, 101, 137). -/
def dispatch (q : String) : RuleTag :=
  let ql := pyLower q
  if strContains ql "how many" && strContains ql "$2 bn" &&
      strContains ql "before 2000" then .count
  else if strContains ql "earliest film" && strContains ql "1.5 bn" then .earliest
  else if strContains ql "correlation" && strContains ql "rank" &&
      strContains ql "peak" then .corr
  else if strContains ql "scatterplot" && strContains ql "rank" &&
      strContains ql "peak" then .plot
  else .sentinel

/-- `ndf["GrossNum"] >= 2.0` on one cell (NaN compares false). -/
def cellGe2 (x : Cell) : Bool :=
  match x with
  | .num q => 2 ≤ q
  | _ => false

/-- `ndf["Year"] < 2000` on one cell (NaN compares false). -/
def cellLt2000 (x : Cell) : Bool :=
  match x with
  | .num q => q < 2000
  | _ => false

/-- `ndf["GrossNum"] > 1.5` on one cell (NaN compares false);
`1.5 = mkRat 3 2`. -/
def cellGt15 (x : Cell) : Bool :=
  match x with
  | .num q => mkRat 3 2 < q
  | _ => false

/-- A row of the Earliest-Above-Threshold computation: (Title, GrossNum, Year)
cells, in the original row order. -/
def rowsTGY (d : DF) : List (Cell × Cell × Cell) :=
  zip3 ((d.getCol? "Title").getD []) ((d.getCol? "GrossNum").getD [])
    ((d.getCol? "Year").getD [])
where
  zip3 : List Cell → List Cell → List Cell → List (Cell × Cell × Cell)
    | t :: ts, g :: gs, y :: ys => (t, g, y) :: zip3 ts gs ys
    | _, _, _ => []

/-- Year sort key of a row (rows reaching the sort have numeric years). -/
def yearKey (r : Cell × Cell × Cell) : ℚ := cellQ r.2.2

/-- Stable insertion of a row into a year-sorted list: the new row (which
originally precedes every listed row) goes before the first row whose year is
not smaller. -/
def insYear (r : Cell × Cell × Cell) :
    List (Cell × Cell × Cell) → List (Cell × Cell × Cell)
  | [] => [r]
  | x :: xs => if yearKey x < yearKey r then x :: insYear r xs else r :: x :: xs

/-- `filtered.sort_values("Year", kind="mergesort")`: the stable ascending
sort by year. (A stable sort is unique as a function, so stable insertion
sort and merge sort agree.) -/
def sortByYearStable : List (Cell × Cell × Cell) → List (Cell × Cell × Cell)
  | [] => []
  | r :: rs => insYear r (sortByYearStable rs)
/-- The body of one loop iteration of `answer_questions` (lines 65-138),
given the branch selected by `dispatch`. Returns the produced
answer — or the propagated Python exception — together with the number of
matplotlib figures opened and never closed during the iteration. -/
noncomputable def applyRule (png : PlotSpec → List ℕ) (tag : RuleTag)
    (ndf : Option DF) : Except String Answer × ℕ :=
  match tag with
  | .count =>
      match ndf with
      | none => (.ok (.aint 0), 0)
      | some d =>
          if d.hasName "GrossNum" && d.hasName "Year" then
            let gl := (d.getCol? "GrossNum").getD []
            let yl := (d.getCol? "Year").getD []
            let count :=
              ((List.zip gl yl).filter (fun p => cellGe2 p.1 && cellLt2000 p.2)).length
            (.ok (.aint count), 0)
          else (.ok (.aint 0), 0)
  | .earliest =>
      match ndf with
      | none => (.ok (.astr ""), 0)
      | some d =>
          if d.hasName "GrossNum" && d.hasName "Year" && d.hasName "Title" then
            let filtered :=
              (rowsTGY d).filter (fun r => cellGt15 r.2.1 && !(cellIsNa r.2.2))
            match (sortByYearStable filtered).head? with
            | none => (.ok (.astr ""), 0)
            | some r => (.ok (.astr (pyStr r.1)), 0)
          else (.ok (.astr ""), 0)
  | .corr =>
      match ndf with
      | none => (.ok (.afloat 0), 0)
      | some d =>
          if d.hasName "Rank" && d.hasName "Peak" then
            let sub := subPairs ((d.getCol? "Rank").getD []) ((d.getCol? "Peak").getD [])
            if sub.isEmpty then (.ok (.afloat 0), 0)
            else
              match seriesCorr sub with
              | some r => (.ok (.afloat (round6 r)), 0)
              | none => (.ok (.afloat (round6 0)), 0)
          else (.ok (.afloat 0), 0)
  | .plot =>
      match ndf with
      | none => (.ok (.astr ""), 0)
      | some d =>
          if d.hasName "Rank" && d.hasName "Peak" then
            let sub := subPairs ((d.getCol? "Rank").getD []) ((d.getCol? "Peak").getD [])
            if sub.isEmpty then (.ok (.astr ""), 0)
            else
              -- fig, ax = plt.subplots(...)  : one figure is now open
              match linregressE (sub.map (·.1)) (sub.map (·.2)) with
              | .error e =>
                  -- the ValueError from linregress propagates; `plt.close(fig)`
                  -- on line 127 is never reached, so the figure stays open
                  (.error e, 1)
              | .ok trend =>
                  -- scatter, trend line, labels, savefig, close(fig)
                  let spec : PlotSpec :=
                    { points := sub, trend := trend, xlabel := "Rank", ylabel := "Peak" }
                  let data_uri :=
                    "data:image/png;base64," ++ String.mk (b64encode (png spec))
                  (.ok (.astr (truncateUri data_uri)), 0)
          else (.ok (.astr ""), 0)
  | .sentinel => (.ok (.astr "Question not recognized or data missing"), 0)

/-- `re.match(r'^\d+\.\s*', s)` as a Boolean: one or more digits followed by a
literal dot at the start (the trailing `\s*` always matches). -/
def reMatchEnum (cs : List Char) : Bool :=
  match cs.dropWhile Char.isDigit with
  | '.' :: _ => !(cs.takeWhile Char.isDigit).isEmpty
  | _ => false

/-- Lines 56-60: the question segmenter inside `answer_questions`. -/
def segmentQuestions (question_str : String) : List String :=
  let questions :=
    ((pySplitlines question_str).map pyStrip).filter (fun l => reMatchEnum l.data)
  if questions.isEmpty && !(pyStrip question_str).data.isEmpty then
    [pyStrip question_str]
  else questions

/-- The `for q in questions` loop: collects answers in order; a raised
exception aborts the loop and propagates, keeping the count of leaked
figures. -/
noncomputable def answerLoop (png : PlotSpec → List ℕ) (ndf : Option DF) :
    List String → Except String (List Answer) × ℕ
  | [] => (.ok [], 0)
  | q :: rest =>
      match applyRule png (dispatch q) ndf with
      | (.error e, k) => (.error e, k)
      | (.ok a, k) =>
          match answerLoop png ndf rest with
          | (.error e, k2) => (.error e, k + k2)
          | (.ok as, k2) => (.ok (a :: as), k + k2)

/-- `answer_questions` (analysis.py lines 49-140): segment the question text,
normalize the table, answer each question in order. The result is the
returned answer list — or the exception that surfaced — paired with the
number of figures left open. -/
noncomputable def answer_questions (png : PlotSpec → List ℕ)
    (question_str : String) (df : Option DF) :
    Except String (List Answer) × ℕ :=
  answerLoop png (_normalize_df df) (segmentQuestions question_str)
/-! ## Specification-side definitions

These are written from the wording of the specification, independently of the
code structure, to be compared with the embedded program. -/

/-- Spec (segmenter): after the leading digits, the rest of an enumerated line
must start with a dot. Recursive formulation from the spec's pattern
`<digits> "." <optional whitespace>`. -/
def enumTailSpec : List Char → Bool
  | [] => false
  | c :: rest => if c = '.' then true else c.isDigit && enumTailSpec rest

/-- Spec: "a line is treated as the start of an enumerated question iff it
matches `^<digits>.<optional whitespace>` at the start of the trimmed line"
— i.e. it begins with at least one digit followed by a dot. -/
def isEnumLineSpec (cs : List Char) : Bool :=
  match cs with
  | [] => false
  | c :: rest => c.isDigit && enumTailSpec rest
/-- Spec segmenter (§4.2 / C6): the trimmed enumerated lines in document
order; else the whole trimmed text as a single question when non-empty; else
no questions. -/
def specSegment (text : String) : List String :=
  let enumLines :=
    ((pySplitlines text).map pyStrip).filter (fun l => isEnumLineSpec l.data)
  match enumLines with
  | _ :: _ => enumLines
  | [] => if (pyStrip text).data = [] then [] else [pyStrip text]

/-- Spec (§4.3): the required substrings of each dispatcher rule. -/
def ruleSubstrings : RuleTag → List String
  | .count => ["how many", "$2 bn", "before 2000"]
  | .earliest => ["earliest film", "1.5 bn"]
  | .corr => ["correlation", "rank", "peak"]
  | .plot => ["scatterplot", "rank", "peak"]
  | .sentinel => []

/-- Spec (§4.3): the fixed rule priority order. -/
def ruleOrder : List RuleTag := [.count, .earliest, .corr, .plot]

/-- Rule `r` matches the (already lowercased) question: all its required
substrings are present. -/
def ruleMatches (ql : String) (r : RuleTag) : Bool :=
  (ruleSubstrings r).all (fun pat => strContains ql pat)

/-- Spec: first-match dispatch over the ordered rule list, with the sentinel
when no rule matches. -/
def firstMatchingRule (ql : String) : List RuleTag → RuleTag
  | [] => .sentinel
  | r :: rs => if ruleMatches ql r then r else firstMatchingRule ql rs

/-- Spec dispatcher: case-insensitive matching, fixed priority order,
first match wins. -/
def specDispatch (q : String) : RuleTag :=
  firstMatchingRule (pyLower q) ruleOrder

/-- Spec (C3): parse the comma-stripped string as a float, formulated by
counting dots and concatenating all digits: valid iff there is at most one
dot and at least one digit; the value is all digits read as one integer,
scaled down by ten to the number of digits after the dot. -/
def parseFloatSpec (cs : List Char) : Option ℚ :=
  if cs.count '.' ≤ 1 ∧ (∃ c ∈ cs, c.isDigit = true) ∧ (∀ c ∈ cs, c.isDigit = true ∨ c = '.') then
    let afterDot := (cs.dropWhile (fun c => c ≠ '.')).drop 1
    some ((natOfDigits (cs.filter Char.isDigit) : ℚ) / (10 : ℚ) ^ afterDot.length)
  else none

/-- Spec (C3): the per-cell `GrossNum` pipeline — strip every character that
is not a digit, dot or comma; strip commas; parse as float; divide by 1e9 on
success; missing on failure. -/
def specGrossNum (gross : Cell) : Cell :=
  let kept := (pyStr gross).data.filter (fun c => c.isDigit || c = '.' || c = ',')
  let noCommas := kept.filter (fun c => c ≠ ',')
  match parseFloatSpec noCommas with
  | some v => .num (v / 1000000000)
  | none => .nan

/-- Spec (C5): the first row, in original order, whose year is minimal —
the row a stable ascending sort puts first. -/
def firstMinYear : List (Cell × Cell × Cell) → Option (Cell × Cell × Cell)
  | [] => none
  | r :: rs =>
      match firstMinYear rs with
      | none => some r
      | some m => if yearKey m < yearKey r then some m else some r

/-- Spec (C5): Earliest-Above-Threshold on a table whose required columns are
present: filter `GrossNum > 1.5`, drop missing years, take the title of the
earliest row (ties broken by original order), empty string if none is left. -/
def specEarliest (d : DF) : String :=
  let filtered := (rowsTGY d).filter (fun r => cellGt15 r.2.1 && !(cellIsNa r.2.2))
  match firstMinYear filtered with
  | none => ""
  | some r => pyStr r.1

/-- Spec (C8): the Pearson coefficient in computational form,
`(nΣxy − ΣxΣy) / √((nΣx² − (Σx)²)(nΣy² − (Σy)²))`. -/
noncomputable def specPearson (ps : List (ℚ × ℚ)) : ℝ :=
  (covNum (ps.map (·.1)) (ps.map (·.2)) : ℝ) /
    Real.sqrt ((varNum (ps.map (·.1)) : ℝ) * (varNum (ps.map (·.2)) : ℝ))

/-- Spec (C8): the value the Correlation answerer must return on a table with
`Rank` and `Peak` present: 0 when no complete row remains or the coefficient
is undefined (zero variance), else the Pearson coefficient rounded to six
decimal places. -/
noncomputable def specCorrValue (rk pk : List Cell) : ℝ :=
  let ps := subPairs rk pk
  if ps.isEmpty then 0
  else if varNum (ps.map (·.1)) * varNum (ps.map (·.2)) = 0 then 0
  else round6 (specPearson ps)
/-! ## Concrete fixtures used by claim theorems and witnesses -/

/-- A trivial rasterizer (the PNG encoding is opaque to every claim). -/
def pngNull : PlotSpec → List ℕ := fun _ => []

/-- A canonical table with `Rank` and `Peak` present and two complete rows —
but all `Rank` values identical, which makes `linregress` raise. -/
def dfAllEqRank : DF := ⟨[("Rank", [.num 1, .num 1]), ("Peak", [.num 1, .num 2])]⟩

/-! ## C1 — the scatter branch and the regression failure -/

/-- **C1** (code_bug evidence). On a canonical table whose `Rank` and `Peak`
columns are present with two complete rows (both `Rank` values equal 1), the
scatterplot question makes `linregress` raise `ValueError`; `answer_questions`
propagates the exception instead of degrading to a scatter without a trend
line, the figure opened by `plt.subplots` is never closed (leak count 1), and
no element is appended to the answer list — contradicting the claim that no
exception surfaces and that drawing resources are released unconditionally. -/
theorem c1_scatter_regression_failure_raises_and_leaks :
    answer_questions pngNull "Draw a scatterplot of Rank vs Peak."
      (some dfAllEqRank) =
    (.error "Cannot calculate a linear regression if all x values are identical", 1) := by
  rfl

/-! ## C6 — the question segmenter -/

/-- Does a character list start with a dot? -/
def dotHead (cs : List Char) : Bool := cs.head? == some '.'

theorem enumTailSpec_eq_dropWhile (cs : List Char) :
    enumTailSpec cs = dotHead (cs.dropWhile Char.isDigit) := by
  induction cs with
  | nil => rfl
  | cons c rest ih =>
    rw [enumTailSpec, List.dropWhile_cons]
    by_cases hdot : c = '.'
    · subst hdot
      simp [dotHead]
    · by_cases hdig : c.isDigit = true
      · rw [if_neg hdot, hdig, Bool.true_and, if_pos rfl, ih]
      · rw [if_neg hdot, if_neg (by simp [hdig])]
        simp [hdig, dotHead, hdot]

theorem reMatchEnum_eq_spec (cs : List Char) :
    reMatchEnum cs = isEnumLineSpec cs := by
  cases cs with
  | nil => rfl
  | cons c rest =>
    by_cases hdig : c.isDigit = true
    · rw [reMatchEnum, isEnumLineSpec]
      rw [List.dropWhile_cons, if_pos hdig, List.takeWhile_cons, if_pos hdig]
      rw [hdig, Bool.true_and, enumTailSpec_eq_dropWhile]
      cases h : rest.dropWhile Char.isDigit with
      | nil => simp [dotHead]
      | cons a l =>
          by_cases ha : a = '.'
          · subst ha; simp [dotHead]
          · simp [dotHead, ha]
    · rw [reMatchEnum, isEnumLineSpec]
      rw [List.dropWhile_cons, if_neg (by simp [hdig]),
        List.takeWhile_cons, if_neg (by simp [hdig])]
      simp only [hdig, Bool.false_and]
      split <;> rfl
/-- **C6**. The question segmenter behaves exactly as specified: the trimmed
lines matching `^<digits>.<optional whitespace>` are returned in document
order when at least one line matches; otherwise the whole trimmed text is the
single question when non-empty; otherwise no question is produced. -/
theorem c6_segmenter_matches_spec (text : String) :
    segmentQuestions text = specSegment text := by
  unfold segmentQuestions specSegment
  rw [List.filter_congr
    (fun l _ => (reMatchEnum_eq_spec l.data : reMatchEnum l.data = isEnumLineSpec l.data))]
  cases h : ((pySplitlines text).map pyStrip).filter (fun l => isEnumLineSpec l.data) with
  | nil =>
      simp only [h, List.isEmpty_nil, Bool.true_and]
      by_cases he : (pyStrip text).data.isEmpty
      · rw [if_neg (by simp [he])]
        rw [if_pos (by simpa [List.isEmpty_iff] using he)]
      · rw [if_pos (by simp [he])]
        rw [if_neg (by simpa [List.isEmpty_iff] using he)]
  | cons a l => simp [h]
/-! ## C2 — dispatcher priority -/

/-- The dispatcher's `if`/`elif` chain equals first-match dispatch over the
ordered rule table with case-insensitive substring matching. -/
theorem dispatch_eq_firstMatch (q : String) : dispatch q = specDispatch q := by
  simp only [dispatch, specDispatch, ruleOrder, firstMatchingRule, ruleMatches,
    ruleSubstrings, List.all_cons, List.all_nil, Bool.and_true, Bool.and_assoc]

/-- The four keywords of the claim are all present in the question
(case-insensitively). -/
def allFourKeywords (q : String) : Bool :=
  ["correlation", "rank", "peak", "scatterplot"].all
    (fun pat => strContains (pyLower q) pat)

/-- A question containing all four keywords and also the three substrings of
the Count-Before-Year rule. -/
def qCountWins : String :=
  "how many correlation rank peak scatterplot $2 bn before 2000"

/-- **C2** (counterexample). The claim "any question containing all of
correlation, rank, peak, and scatterplot resolves to the Correlation
answerer" is false: this question contains all four keywords yet resolves to
the Count-Before-Year rule, which matches first. -/
theorem c2_counterexample_count_wins :
    allFourKeywords qCountWins = true ∧
    dispatch qCountWins = RuleTag.count ∧ RuleTag.count ≠ RuleTag.corr := by
  refine ⟨by decide, by decide, by decide⟩

/-- **C2** (amended). The dispatcher tries its rules in the fixed priority
order (Count-Before-Year, Earliest-Above-Threshold, Correlation, Plot,
sentinel) with case-insensitive substring matching and the first rule whose
required substrings are all present wins; a question containing all of
"correlation", "rank", "peak" and "scatterplot" never resolves to the Plot
Renderer, and resolves to the Correlation answerer whenever neither of the
two higher-priority rules matches. -/
theorem c2_dispatch_priority :
    (∀ q : String, dispatch q = specDispatch q) ∧
    (∀ q : String, allFourKeywords q = true → dispatch q ≠ RuleTag.plot) ∧
    (∀ q : String, allFourKeywords q = true →
      ruleMatches (pyLower q) RuleTag.count = false →
      ruleMatches (pyLower q) RuleTag.earliest = false →
      dispatch q = RuleTag.corr) := by
  have hcorr : ∀ q : String, allFourKeywords q = true →
      ruleMatches (pyLower q) RuleTag.corr = true := by
    intro q h
    simp only [allFourKeywords, List.all_cons, List.all_nil, Bool.and_true,
      Bool.and_eq_true] at h
    simp only [ruleMatches, ruleSubstrings, List.all_cons, List.all_nil,
      Bool.and_true, Bool.and_eq_true]
    exact ⟨h.1, h.2.1, h.2.2.1⟩
  refine ⟨dispatch_eq_firstMatch, ?_, ?_⟩
  · intro q h
    rw [dispatch_eq_firstMatch]
    simp only [specDispatch, ruleOrder, firstMatchingRule]
    by_cases h1 : ruleMatches (pyLower q) RuleTag.count = true
    · simp [h1]
    · by_cases h2 : ruleMatches (pyLower q) RuleTag.earliest = true
      · simp [h1, h2]
      · simp [h1, h2, hcorr q h]
  · intro q h h1 h2
    rw [dispatch_eq_firstMatch]
    simp only [specDispatch, ruleOrder, firstMatchingRule]
    simp [h1, h2, hcorr q h]

/-- Witness for C2: a question with all four keywords and no higher-priority
match resolves to the Correlation answerer. -/
theorem c2_dispatch_priority_witness :
    allFourKeywords "Is there a correlation between Rank and Peak? Draw a scatterplot." = true ∧
    dispatch "Is there a correlation between Rank and Peak? Draw a scatterplot." =
      RuleTag.corr :=
  ⟨by decide,
    c2_dispatch_priority.2.2
      "Is there a correlation between Rank and Peak? Draw a scatterplot."
      (by decide) (by decide) (by decide)⟩
/-! ## C3 — the `GrossNum` derivation -/

theorem digit_ne_dot {c : Char} (h : c.isDigit = true) : ¬(c = '.') := by
  intro he
  subst he
  exact absurd h (by decide)

theorem foldlDigits_acc (cs : List Char) (acc : ℕ) :
    cs.foldl (fun a c => a * 10 + (c.toNat - 48)) acc =
      acc * 10 ^ cs.length + natOfDigits cs := by
  induction cs generalizing acc with
  | nil => simp [natOfDigits]
  | cons c rest ih =>
    have hhead : natOfDigits (c :: rest) =
        (c.toNat - 48) * 10 ^ rest.length + natOfDigits rest := by
      rw [natOfDigits, List.foldl_cons, ih]
      simp
    rw [List.foldl_cons, ih, hhead, List.length_cons, pow_succ]
    ring

theorem natOfDigits_append (a b : List Char) :
    natOfDigits (a ++ b) = natOfDigits a * 10 ^ b.length + natOfDigits b := by
  rw [natOfDigits, List.foldl_append, foldlDigits_acc]
  rfl

theorem dropWhile_head_false {p : Char → Bool} {l l' : List Char} {b : Char}
    (h : l.dropWhile p = b :: l') : p b = false := by
  induction l with
  | nil => simp at h
  | cons c rest ih =>
    rw [List.dropWhile_cons] at h
    by_cases hc : p c = true
    · rw [if_pos hc] at h
      exact ih h
    · rw [if_neg hc] at h
      cases h
      simpa using hc

theorem count_dot_zero {l : List Char}
    (h : ∀ c ∈ l, c.isDigit = true) : l.count '.' = 0 := by
  rw [List.count_eq_zero]
  intro hmem
  exact digit_ne_dot (h '.' hmem) rfl

theorem dropWhile_ne_dot_of_digits {l : List Char}
    (h : ∀ c ∈ l, c.isDigit = true) :
    l.dropWhile (fun x => x ≠ '.') = [] := by
  rw [List.dropWhile_eq_nil_iff]
  intro x hx
  simpa using digit_ne_dot (h x hx)
/-- Unfolding lemma for `pyFloat?` with the scrutinee exposed. -/
theorem pyFloat?_unfold (cs : List Char) :
    pyFloat? cs = (match cs.dropWhile Char.isDigit with
      | [] => if (cs.takeWhile Char.isDigit).isEmpty then none
          else some ((natOfDigits (cs.takeWhile Char.isDigit) : ℚ))
      | r :: rest =>
          if r = '.' ∧ rest.all Char.isDigit = true ∧
              ¬(cs.takeWhile Char.isDigit = [] ∧ rest = []) then
            some ((natOfDigits (cs.takeWhile Char.isDigit) : ℚ) + fracOfDigits rest)
          else none) := rfl

theorem pyFloat?_drop_nil (cs : List Char) (h : cs.dropWhile Char.isDigit = []) :
    pyFloat? cs = (if (cs.takeWhile Char.isDigit).isEmpty then none
      else some ((natOfDigits (cs.takeWhile Char.isDigit) : ℚ))) := by
  rw [pyFloat?_unfold, h]

theorem pyFloat?_drop_cons (cs : List Char) (r : Char) (rest : List Char)
    (h : cs.dropWhile Char.isDigit = r :: rest) :
    pyFloat? cs = (if r = '.' ∧ rest.all Char.isDigit = true ∧
        ¬(cs.takeWhile Char.isDigit = [] ∧ rest = []) then
      some ((natOfDigits (cs.takeWhile Char.isDigit) : ℚ) + fracOfDigits rest)
    else none) := by
  rw [pyFloat?_unfold, h]

/-- The embedded Python `float()` agrees with the specification's
count-the-dots formulation on every character list. -/
theorem pyFloat?_eq_parseFloatSpec (cs : List Char) :
    pyFloat? cs = parseFloatSpec cs := by
  have hsplit : cs.takeWhile Char.isDigit ++ cs.dropWhile Char.isDigit = cs :=
    List.takeWhile_append_dropWhile Char.isDigit cs
  have hintD : ∀ c ∈ cs.takeWhile Char.isDigit, c.isDigit = true :=
    fun c hc => List.mem_takeWhile_imp hc
  cases hdrop : cs.dropWhile Char.isDigit with
  | nil =>
      rw [pyFloat?_drop_nil cs hdrop]
      have hcs : cs.takeWhile Char.isDigit = cs := by
        conv_rhs => rw [← hsplit]
        rw [hdrop, List.append_nil]
      have hall : ∀ c ∈ cs, c.isDigit = true := by
        intro c hc
        exact hintD c (by rw [hcs]; exact hc)
      rw [hcs]
      cases cs with
      | nil => decide
      | cons c rest =>
          rw [if_neg (by simp)]
          have hne : c.isDigit = true := hall c (by simp)
          rw [parseFloatSpec, if_pos ?side]
          case side =>
            refine ⟨?_, ⟨c, by simp, hne⟩, fun x hx => Or.inl (hall x hx)⟩
            rw [count_dot_zero hall]
            omega
          rw [dropWhile_ne_dot_of_digits hall]
          rw [List.filter_eq_self.mpr hall]
          simp
  | cons r rest =>
      rw [pyFloat?_drop_cons cs r rest hdrop]
      have hr : r.isDigit = false := dropWhile_head_false hdrop
      have hcs : cs = cs.takeWhile Char.isDigit ++ r :: rest := by
        conv_lhs => rw [← hsplit]
        rw [hdrop]
      by_cases hrdot : r = '.'
      · subst hrdot
        by_cases hrest : rest.all Char.isDigit = true
        · have hrest' : ∀ c ∈ rest, c.isDigit = true := List.all_eq_true.mp hrest
          by_cases hboth : (cs.takeWhile Char.isDigit) = [] ∧ rest = []
          · -- cs = "." : no digit anywhere, both sides fail
            have hcs2 : cs = ['.'] := by
              rw [hcs, hboth.1, hboth.2]
              rfl
            rw [if_neg (by rintro ⟨-, -, h⟩; exact h hboth)]
            rw [parseFloatSpec, if_neg]
            rintro ⟨-, ⟨c, hc, hcd⟩, -⟩
            rw [hcs2] at hc
            rcases List.mem_singleton.mp hc with rfl
            exact absurd hcd (by decide)
          · -- a genuine "digits [dot digits]" literal: both sides succeed
            rw [if_pos ⟨rfl, hrest, hboth⟩]
            have hanyd : ∃ c ∈ cs, c.isDigit = true := by
              rcases not_and_or.mp hboth with h | h
              · rcases List.exists_mem_of_ne_nil _ h with ⟨c, hc⟩
                exact ⟨c, by rw [hcs]; exact List.mem_append_left _ hc, hintD c hc⟩
              · rcases List.exists_mem_of_ne_nil _ h with ⟨c, hc⟩
                refine ⟨c, by rw [hcs]; exact List.mem_append_right _ (by simp [hc]), ?_⟩
                exact hrest' c hc
            have hcnt : cs.count '.' = 1 := by
              rw [hcs, List.count_append, List.count_cons]
              rw [count_dot_zero hintD, count_dot_zero hrest']
              simp
            rw [parseFloatSpec, if_pos ?side2]
            case side2 =>
              refine ⟨by omega, hanyd, ?_⟩
              intro x hx
              rw [hcs] at hx
              rcases List.mem_append.mp hx with h | h
              · exact Or.inl (hintD x h)
              · rcases List.mem_cons.mp h with rfl | h
                · exact Or.inr rfl
                · exact Or.inl (hrest' x h)
            have hdw : cs.dropWhile (fun x => x ≠ '.') = '.' :: rest := by
              conv_lhs => rw [hcs]
              rw [List.dropWhile_append_of_pos
                (fun a ha => by simpa using digit_ne_dot (hintD a ha))]
              rw [List.dropWhile_cons]
              simp
            have hfilter : cs.filter Char.isDigit = cs.takeWhile Char.isDigit ++ rest := by
              conv_lhs => rw [hcs]
              rw [List.filter_append, List.filter_eq_self.mpr hintD, List.filter_cons]
              rw [List.filter_eq_self.mpr hrest']
              simp [hr]
            rw [hdw, hfilter]
            simp only [List.drop_succ_cons, List.drop_zero, Option.some.injEq]
            rw [natOfDigits_append, fracOfDigits]
            push_cast
            have hpow : ((10 : ℚ)) ^ rest.length ≠ 0 := by positivity
            field_simp
        · -- a second dot (or, impossibly, junk) inside the fractional part
          rw [if_neg (by rintro ⟨-, h, -⟩; exact hrest h)]
          by_cases hallc : ∀ c ∈ cs, c.isDigit = true ∨ c = '.'
          · have hrest2 : ∃ c ∈ rest, ¬(c.isDigit = true) := by
              by_contra hno
              push_neg at hno
              exact hrest (List.all_eq_true.mpr hno)
            rcases hrest2 with ⟨c, hc, hcnd⟩
            have hcdot : c = '.' := by
              rcases hallc c (by rw [hcs]; exact List.mem_append_right _ (by simp [hc]))
                with h | h
              · exact absurd h hcnd
              · exact h
            have hcnt : ¬(cs.count '.' ≤ 1) := by
              rw [hcs, List.count_append, List.count_cons]
              have h2 : 1 ≤ rest.count '.' := List.one_le_count_iff.mpr (hcdot ▸ hc)
              simp only [beq_self_eq_true, if_pos]
              omega
            rw [parseFloatSpec, if_neg (by rintro ⟨h1, -, -⟩; exact hcnt h1)]
          · rw [parseFloatSpec, if_neg (by rintro ⟨-, -, h3⟩; exact hallc h3)]
      · -- the first non-digit character is junk: both sides fail
        have hmem : r ∈ cs := by
          rw [hcs]
          exact List.mem_append_right _ (by simp)
        rw [if_neg (by rintro ⟨h, -, -⟩; exact hrdot h)]
        rw [parseFloatSpec, if_neg]
        rintro ⟨-, -, h3⟩
        rcases h3 r hmem with h | h
        · exact absurd h (by simp [hr])
        · exact hrdot h
/-- `parse_gross` computes exactly the specified per-cell pipeline. -/
theorem parse_gross_eq_spec (x : Cell) : parse_gross x = specGrossNum x := by
  rw [parse_gross, specGrossNum, pyFloat?_eq_parseFloatSpec]

theorem find?_map_replace (l : List (String × List Cell)) (n : String)
    (cells : List Cell) (hmem : ∃ c ∈ l, c.1 = n) :
    ((l.map (fun c => if c.1 = n then (c.1, cells) else c)).find?
        (fun c => c.1 = n)).map (·.2) = some cells := by
  induction l with
  | nil => simp at hmem
  | cons a l ih =>
      by_cases ha : a.1 = n
      · rw [List.map_cons, if_pos ha, List.find?_cons_of_pos _ (by simpa using ha)]
        rfl
      · rw [List.map_cons, if_neg ha, List.find?_cons_of_neg _ (by simpa using ha)]
        rcases hmem with ⟨c, hc, hcn⟩
        rcases List.mem_cons.mp hc with rfl | hc'
        · exact absurd hcn ha
        · exact ih ⟨c, hc', hcn⟩

theorem find?_map_replace_ne (l : List (String × List Cell)) (n m : String)
    (cells : List Cell) (h : ¬(m = n)) :
    ((l.map (fun c => if c.1 = n then (c.1, cells) else c)).find?
        (fun c => c.1 = m)).map (·.2) = (l.find? (fun c => c.1 = m)).map (·.2) := by
  induction l with
  | nil => rfl
  | cons a l ih =>
      by_cases ha : a.1 = n
      · have ham : ¬(a.1 = m) := fun hm => h ((hm.symm.trans ha))
        rw [List.map_cons, if_pos ha, List.find?_cons_of_neg _ (by simpa using ham),
          List.find?_cons_of_neg _ (by simpa using ham)]
        exact ih
      · rw [List.map_cons, if_neg ha]
        by_cases ham : a.1 = m
        · rw [List.find?_cons_of_pos _ (by simpa using ham),
            List.find?_cons_of_pos _ (by simpa using ham)]
        · rw [List.find?_cons_of_neg _ (by simpa using ham),
            List.find?_cons_of_neg _ (by simpa using ham)]
          exact ih

theorem getCol?_setCol_self (d : DF) (n : String) (cells : List Cell) :
    (d.setCol n cells).getCol? n = some cells := by
  rw [DF.setCol]
  by_cases h : d.hasName n = true
  · rw [if_pos h, DF.getCol?]
    rw [DF.hasName, List.any_eq_true] at h
    rcases h with ⟨c, hc, hcn⟩
    exact find?_map_replace d.cols n cells ⟨c, hc, by simpa using hcn⟩
  · rw [if_neg h, DF.getCol?]
    rw [DF.hasName] at h
    have hnone : d.cols.find? (fun c => c.1 = n) = none := by
      rw [List.find?_eq_none]
      intro c hc hcn
      exact h (List.any_eq_true.mpr ⟨c, hc, hcn⟩)
    simp only [List.find?_append, hnone, Option.none_or]
    rw [List.find?_cons_of_pos _ (by simp)]
    rfl

theorem getCol?_setCol_ne (d : DF) (n m : String) (cells : List Cell)
    (h : ¬(m = n)) : (d.setCol n cells).getCol? m = d.getCol? m := by
  rw [DF.setCol]
  by_cases hn : d.hasName n = true
  · rw [if_pos hn, DF.getCol?, DF.getCol?]
    exact find?_map_replace_ne d.cols n m cells h
  · rw [if_neg hn, DF.getCol?, DF.getCol?]
    simp only [List.find?_append]
    rw [List.find?_cons_of_neg _ (by simpa using fun he => h he.symm), List.find?_nil]
    simp
theorem getCol?_coerceYRP (d : DF) (m : String)
    (hm : ¬(m = "Year") ∧ ¬(m = "Rank") ∧ ¬(m = "Peak")) :
    (coerceYRP d).getCol? m = d.getCol? m := by
  rw [coerceYRP, DF.getCol?, DF.getCol?]
  induction d.cols with
  | nil => rfl
  | cons a l ih =>
      by_cases ham : a.1 = m
      · have hnot : ¬(a.1 = "Year" || a.1 = "Rank" || a.1 = "Peak") = true := by
          subst ham
          simp only [Bool.or_eq_true, decide_eq_true_eq]
          rintro ((h | h) | h)
          · exact hm.1 h
          · exact hm.2.1 h
          · exact hm.2.2 h
        rw [List.map_cons, if_neg hnot, List.find?_cons_of_pos _ (by simpa using ham),
          List.find?_cons_of_pos _ (by simpa using ham)]
      · rw [List.map_cons]
        by_cases hy : (a.1 = "Year" || a.1 = "Rank" || a.1 = "Peak") = true
        · rw [if_pos hy, List.find?_cons_of_neg _ (by simpa using ham),
            List.find?_cons_of_neg _ (by simpa using ham)]
          exact ih
        · rw [if_neg hy, List.find?_cons_of_neg _ (by simpa using ham),
            List.find?_cons_of_neg _ (by simpa using ham)]
          exact ih

/-- **C3**. For every input table, whenever the normalized output has a
`Gross` column (after aliasing), its `GrossNum` column is exactly the
specified per-cell pipeline applied to that `Gross` column: strip every
character that is not a digit, dot or comma, strip commas, parse as float,
divide by 1e9 on success, and a missing value on parse failure — never an
error. -/
theorem c3_grossnum_per_cell (d out : DF) (gl : List Cell)
    (h1 : _normalize_df (some d) = some out)
    (h2 : out.getCol? "Gross" = some gl) :
    out.getCol? "GrossNum" = some (gl.map specGrossNum) := by
  have hout : out = normalizeSteps d := by
    rw [_normalize_df] at h1
    by_cases he : d.emptyDF = true
    · rw [if_pos he] at h1
      cases h1
    · rw [if_neg he] at h1
      exact ((Option.some.injEq _ _).mp h1.symm)
  subst hout
  rw [normalizeSteps] at h2 ⊢
  cases hA : (aliasGross (stripNames d)).getCol? "Gross" with
  | none =>
      have hder : deriveGrossNum (aliasGross (stripNames d)) = aliasGross (stripNames d) := by
        unfold deriveGrossNum
        rw [hA]
      rw [hder] at h2
      rw [getCol?_coerceYRP _ _ (by refine ⟨?_, ?_, ?_⟩ <;> decide), hA] at h2
      cases h2
  | some gA =>
      have hder : deriveGrossNum (aliasGross (stripNames d)) =
          (aliasGross (stripNames d)).setCol "GrossNum" (gA.map parse_gross) := by
        unfold deriveGrossNum
        rw [hA]
      rw [hder] at h2 ⊢
      rw [getCol?_coerceYRP _ _ (by refine ⟨?_, ?_, ?_⟩ <;> decide)] at h2 ⊢
      rw [getCol?_setCol_ne _ _ _ _ (by decide)] at h2
      rw [hA] at h2
      have hgl : gl = gA := by
        cases h2
        rfl
      subst hgl
      rw [getCol?_setCol_self]
      have hfun : parse_gross = specGrossNum := funext parse_gross_eq_spec
      rw [hfun]

/-- Input fixture for the C3 witness: a raw table whose gross column is
aliased and contains one parseable and one unparseable cell. -/
def dfGrossIn : DF := ⟨[("Worldwide gross", [.str "$2,923,706,026", .str "N/A"])]⟩

/-- The normalized C3 witness table. -/
def dfGrossOut : DF := normalizeSteps dfGrossIn

/-- Witness for C3 at a concrete table: the hypotheses hold and the
`GrossNum` column is the specified pipeline of the `Gross` column. -/
theorem c3_grossnum_per_cell_witness :
    _normalize_df (some dfGrossIn) = some dfGrossOut ∧
    dfGrossOut.getCol? "Gross" = some [.str "$2,923,706,026", .str "N/A"] ∧
    dfGrossOut.getCol? "GrossNum" =
      some ([Cell.str "$2,923,706,026", Cell.str "N/A"].map specGrossNum) :=
  ⟨rfl, rfl, c3_grossnum_per_cell dfGrossIn dfGrossOut _ rfl rfl⟩
/-! ## C5 — Earliest-Above-Threshold and stable sorting -/

/-- A cell that pandas numeric comparison/sorting handles: a number or NaN
(text cells would make the pandas comparisons of this branch raise, and
cannot appear in the numeric columns of a canonical table). -/
def cellNumeric (c : Cell) : Bool :=
  match c with
  | .str _ => false
  | _ => true

/-- Every cell of the named column (if present) is numeric or missing. -/
def colNumeric (d : DF) (n : String) : Prop :=
  ∀ c ∈ (d.getCol? n).getD [], cellNumeric c = true

instance (d : DF) (n : String) : Decidable (colNumeric d n) := by
  unfold colNumeric
  infer_instance

/-- The first element of the stable ascending year sort is the first row, in
original order, whose year is minimal. -/
theorem head?_sortByYearStable (l : List (Cell × Cell × Cell)) :
    (sortByYearStable l).head? = firstMinYear l := by
  induction l with
  | nil => rfl
  | cons r rs ih =>
      rw [sortByYearStable, firstMinYear, ← ih]
      cases hs : sortByYearStable rs with
      | nil => rfl
      | cons m rest =>
          show (if yearKey m < yearKey r then m :: insYear r rest
              else r :: m :: rest).head? =
            (if yearKey m < yearKey r then some m else some r)
          by_cases hlt : yearKey m < yearKey r
          · rw [if_pos hlt, if_pos hlt]
            rfl
          · rw [if_neg hlt, if_neg hlt]
            rfl

/-- **C5**. On a canonical table (numeric `GrossNum` and `Year` columns), the
Earliest-Above-Threshold answerer never raises and returns: the title of the
first row in original order among the minimal-year rows that pass the strict
`GrossNum > 1.5` filter and have a year (the row a stable ascending sort
places first); the empty string when no row passes; and the empty string when
any of `GrossNum`, `Year`, `Title` is absent. -/
theorem c5_earliest_stable (png : PlotSpec → List ℕ) (d : DF)
    (hg : colNumeric d "GrossNum") (hy : colNumeric d "Year") :
    applyRule png RuleTag.earliest (some d) =
      (.ok (.astr (if (d.hasName "GrossNum" && d.hasName "Year" && d.hasName "Title") = true
        then specEarliest d else "")), 0) := by
  have hred : applyRule png RuleTag.earliest (some d) =
      (if (d.hasName "GrossNum" && d.hasName "Year" && d.hasName "Title") = true then
        match (sortByYearStable ((rowsTGY d).filter
            (fun r => cellGt15 r.2.1 && !(cellIsNa r.2.2)))).head? with
        | none => ((.ok (.astr "")), 0)
        | some r => ((.ok (.astr (pyStr r.1))), 0)
      else ((.ok (.astr "")), 0)) := rfl
  rw [hred]
  by_cases hcol : (d.hasName "GrossNum" && d.hasName "Year" && d.hasName "Title") = true
  · rw [if_pos hcol, if_pos hcol, specEarliest, head?_sortByYearStable]
    cases firstMinYear ((rowsTGY d).filter (fun r => cellGt15 r.2.1 && !(cellIsNa r.2.2))) with
    | none => rfl
    | some r => rfl
  · rw [if_neg hcol, if_neg hcol]

/-- The spec's own example table for Earliest-Above-Threshold: rows
(Title `A`, GrossNum 1.6, Year 2001) and (Title `B`, GrossNum 2.0,
Year 1998). -/
def dfEarliest : DF :=
  ⟨[("Title", [.str "A", .str "B"]),
    ("GrossNum", [.num (mkRat 8 5), .num 2]),
    ("Year", [.num 2001, .num 1998])]⟩

/-- Witness for C5: on the spec's example the answerer returns `"B"`. -/
theorem c5_earliest_stable_witness :
    colNumeric dfEarliest "GrossNum" ∧ colNumeric dfEarliest "Year" ∧
    applyRule pngNull RuleTag.earliest (some dfEarliest) = (.ok (.astr "B"), 0) := by
  refine ⟨by decide, by decide, ?_⟩
  rw [c5_earliest_stable pngNull dfEarliest (by decide) (by decide)]
  rfl
/-! ## C10 — the scatter branch's empty cases -/

/-- The complete (Rank, Peak) pairs: `ndf[["Rank", "Peak"]].dropna()` as used
by both the Correlation and the Plot branches (lines 93 and 105). -/
def rankPeakSub (d : DF) : List (ℚ × ℚ) :=
  subPairs ((d.getCol? "Rank").getD []) ((d.getCol? "Peak").getD [])

/-- Reduction of the plot branch on a present table. -/
theorem applyRule_plot_some (png : PlotSpec → List ℕ) (d : DF) :
    applyRule png RuleTag.plot (some d) =
      (if (d.hasName "Rank" && d.hasName "Peak") = true then
        (if (rankPeakSub d).isEmpty = true then ((.ok (.astr "")), 0)
          else
            match linregressE ((rankPeakSub d).map (·.1)) ((rankPeakSub d).map (·.2)) with
            | .error e => ((.error e), 1)
            | .ok trend =>
                ((.ok (.astr (truncateUri ("data:image/png;base64," ++ String.mk (b64encode
                  (png { points := rankPeakSub d, trend := trend,
                         xlabel := "Rank", ylabel := "Peak" })))))), 0))
      else ((.ok (.astr "")), 0)) := rfl

/-- **C10**. When normalization produced no table, or the `Rank` and `Peak`
columns are present but no row has both values, the scatterplot branch
returns the empty string (no image, no sentinel, no error, no leaked
figure). -/
theorem c10_plot_returns_empty (png : PlotSpec → List ℕ) :
    applyRule png RuleTag.plot none = (.ok (.astr ""), 0) ∧
    (∀ d : DF, (d.hasName "Rank" && d.hasName "Peak") = true →
      rankPeakSub d = [] →
      applyRule png RuleTag.plot (some d) = (.ok (.astr ""), 0)) := by
  refine ⟨rfl, ?_⟩
  intro d hcols hsub
  rw [applyRule_plot_some, if_pos hcols, if_pos (by rw [hsub]; rfl)]

/-- `Rank` and `Peak` both present, one row, but the `Rank` value missing:
no complete row survives `dropna`. -/
def dfNoCompleteRow : DF := ⟨[("Rank", [.nan]), ("Peak", [.num 1])]⟩

/-- Witness for C10: on a concrete table with `Rank`/`Peak` present but no
complete row, the scatter branch answers the empty string. -/
theorem c10_plot_returns_empty_witness :
    (dfNoCompleteRow.hasName "Rank" && dfNoCompleteRow.hasName "Peak") = true ∧
    rankPeakSub dfNoCompleteRow = [] ∧
    applyRule pngNull RuleTag.plot (some dfNoCompleteRow) = (.ok (.astr ""), 0) :=
  ⟨by decide, by decide,
    (c10_plot_returns_empty pngNull).2 dfNoCompleteRow (by decide) (by decide)⟩

/-! ## C7 — the 100,000-character ceiling -/

/-- **C7**. Whatever the rasterized image bytes are, the plot branch's answer
string never exceeds 100,000 characters, and a data URI longer than the
ceiling is truncated to exactly its first 100,000 characters. -/
theorem c7_plot_output_capped :
    (∀ (png : PlotSpec → List ℕ) (ndf : Option DF) (a : String) (n : ℕ),
      applyRule png RuleTag.plot ndf = (.ok (.astr a), n) → a.data.length ≤ 100000) ∧
    (∀ s : String, 100000 < s.data.length → truncateUri s = ⟨s.data.take 100000⟩) ∧
    (∀ s : String, (truncateUri s).data.length ≤ 100000) := by
  have htrunc : ∀ s : String, (truncateUri s).data.length ≤ 100000 := by
    intro s
    rw [truncateUri]
    by_cases h : 100000 < s.data.length
    · rw [if_pos h]
      simp [List.length_take]
    · rw [if_neg h]
      omega
  refine ⟨?_, ?_, htrunc⟩
  · intro png ndf a n h
    cases ndf with
    | none =>
        rw [applyRule] at h
        have h2 := ((Prod.mk.injEq _ _ _ _).mp h).1
        simp only [Except.ok.injEq, Answer.astr.injEq] at h2
        rw [← h2]
        simp
    | some d =>
        rw [applyRule_plot_some] at h
        by_cases hcols : (d.hasName "Rank" && d.hasName "Peak") = true
        · rw [if_pos hcols] at h
          by_cases hsub : (rankPeakSub d).isEmpty = true
          · rw [if_pos hsub] at h
            have h2 := ((Prod.mk.injEq _ _ _ _).mp h).1
            simp only [Except.ok.injEq, Answer.astr.injEq] at h2
            rw [← h2]
            simp
          · rw [if_neg hsub] at h
            cases hlin : linregressE ((rankPeakSub d).map (·.1)) ((rankPeakSub d).map (·.2)) with
            | error e =>
                rw [hlin] at h
                have h2 := ((Prod.mk.injEq _ _ _ _).mp h).1
                cases h2
            | ok trend =>
                rw [hlin] at h
                have h2 := ((Prod.mk.injEq _ _ _ _).mp h).1
                simp only [Except.ok.injEq, Answer.astr.injEq] at h2
                rw [← h2]
                exact htrunc _
        · rw [if_neg hcols] at h
          have h2 := ((Prod.mk.injEq _ _ _ _).mp h).1
          simp only [Except.ok.injEq, Answer.astr.injEq] at h2
          rw [← h2]
          simp
  · intro s h
    rw [truncateUri, if_pos h]

/-- A canonical table on which the regression succeeds, so the plot branch
produces a data URI. -/
def dfPlotOk : DF := ⟨[("Rank", [.num 1, .num 2]), ("Peak", [.num 1, .num 2])]⟩

/-- A string of 100,001 identical characters. -/
def longString : String := ⟨List.replicate 100001 'a'⟩

/-- Witness for C7: a successfully rendered answer obeys the ceiling, and an
over-long data URI is truncated to exactly 100,000 characters. -/
theorem c7_plot_output_capped_witness :
    applyRule pngNull RuleTag.plot (some dfPlotOk) =
      (.ok (.astr "data:image/png;base64,"), 0) ∧
    "data:image/png;base64,".data.length ≤ 100000 ∧
    100000 < longString.data.length ∧
    truncateUri longString = ⟨longString.data.take 100000⟩ := by
  have hrun : applyRule pngNull RuleTag.plot (some dfPlotOk) =
      (.ok (.astr "data:image/png;base64,"), 0) := rfl
  have hlong : 100000 < longString.data.length := by
    have hlen : longString.data.length = 100001 := List.length_replicate _ _
    omega
  exact ⟨hrun,
    c7_plot_output_capped.1 pngNull (some dfPlotOk) _ 0 hrun,
    hlong,
    c7_plot_output_capped.2.1 longString hlong⟩
/-! ## C9 — the normalizer's frame and null contract -/

/-- **C9**. `_normalize_df` never mutates the caller's table: in the
state-threaded embedding `normalizeFrame`, whose first component is the
caller's binding after the call (every write in the source targets the copy
`out` made on line 17), the caller's table is returned unchanged; the result
is null exactly when the input is absent or empty, and otherwise it is the
new table built from the copy by the normalization steps. -/
theorem c9_normalize_no_mutation :
    (∀ df : Option DF,
      (normalizeFrame df).1 = df ∧ (normalizeFrame df).2 = _normalize_df df) ∧
    (∀ df : Option DF,
      (_normalize_df df = none ↔ df = none ∨ ∃ d, df = some d ∧ d.emptyDF = true)) ∧
    (∀ d : DF, d.emptyDF = false →
      _normalize_df (some d) = some (normalizeSteps d)) := by
  refine ⟨?_, ?_, ?_⟩
  · intro df
    cases df with
    | none => exact ⟨rfl, rfl⟩
    | some d =>
        rw [normalizeFrame, _normalize_df]
        by_cases he : d.emptyDF = true
        · rw [if_pos he, if_pos he]
          exact ⟨rfl, rfl⟩
        · rw [if_neg he, if_neg he]
          exact ⟨rfl, rfl⟩
  · intro df
    cases df with
    | none => simp [_normalize_df]
    | some d =>
        rw [_normalize_df]
        by_cases he : d.emptyDF = true
        · rw [if_pos he]
          simp [he]
        · rw [if_neg he]
          simp only [Bool.not_eq_true] at he
          simp [he]
  · intro d he
    rw [_normalize_df, if_neg (by rw [he]; intro hc; cases hc)]
/-! ## C8 — the Correlation answerer -/

theorem sumQ_nil : sumQ [] = 0 := rfl

theorem sumQ_cons (x : ℚ) (l : List ℚ) : sumQ (x :: l) = x + sumQ l := rfl

theorem sumQ_eq_sum (l : List ℚ) : sumQ l = l.sum := rfl

theorem zipWith_mul_map (ps : List (ℚ × ℚ)) :
    List.zipWith (· * ·) (ps.map (·.1)) (ps.map (·.2)) =
      ps.map (fun p => p.1 * p.2) := by
  induction ps with
  | nil => rfl
  | cons p ps ih => simp [ih]

theorem sum_centered (ps : List (ℚ × ℚ)) (a b : ℚ) :
    sumQ (ps.map (fun p => (p.1 - a) * (p.2 - b))) =
      sumQ (ps.map (fun p => p.1 * p.2)) - a * sumQ (ps.map (·.2))
        - b * sumQ (ps.map (·.1)) + (ps.length : ℚ) * (a * b) := by
  induction ps with
  | nil => simp [sumQ_nil]
  | cons p ps ih =>
      simp only [List.map_cons, sumQ_cons, ih, List.length_cons]
      push_cast
      ring

theorem sum_centered_sq (l : List ℚ) (a : ℚ) :
    sumQ (l.map (fun x => (x - a) * (x - a))) =
      sumQ (l.map (fun x => x * x)) - 2 * a * sumQ l + (l.length : ℚ) * (a * a) := by
  induction l with
  | nil => simp [sumQ_nil]
  | cons x l ih =>
      simp only [List.map_cons, sumQ_cons, ih, List.length_cons]
      push_cast
      ring

theorem length_ne_zeroQ {ps : List (ℚ × ℚ)} (h : ¬(ps.isEmpty = true)) :
    ((ps.length : ℚ)) ≠ 0 := by
  cases ps with
  | nil => exact absurd rfl h
  | cons p l =>
      simp only [List.length_cons]
      push_cast
      positivity

theorem n_mul_sxy (ps : List (ℚ × ℚ)) (h : ¬(ps.isEmpty = true)) :
    (ps.length : ℚ) * sxy ps = covNum (ps.map (·.1)) (ps.map (·.2)) := by
  have hn := length_ne_zeroQ h
  rw [sxy, sum_centered, covNum, zipWith_mul_map, meanFst, meanSnd]
  simp only [List.length_map]
  field_simp
  ring

theorem n_mul_sxx (ps : List (ℚ × ℚ)) (h : ¬(ps.isEmpty = true)) :
    (ps.length : ℚ) * sxx ps = varNum (ps.map (·.1)) := by
  have hn := length_ne_zeroQ h
  have hmap : ps.map (fun p => (p.1 - meanFst ps) * (p.1 - meanFst ps)) =
      (ps.map (·.1)).map (fun x => (x - meanFst ps) * (x - meanFst ps)) := by
    rw [List.map_map]
    rfl
  rw [sxx, hmap, sum_centered_sq, varNum, meanFst]
  simp only [List.length_map]
  field_simp
  ring

theorem n_mul_syy (ps : List (ℚ × ℚ)) (h : ¬(ps.isEmpty = true)) :
    (ps.length : ℚ) * syy ps = varNum (ps.map (·.2)) := by
  have hn := length_ne_zeroQ h
  have hmap : ps.map (fun p => (p.2 - meanSnd ps) * (p.2 - meanSnd ps)) =
      (ps.map (·.2)).map (fun x => (x - meanSnd ps) * (x - meanSnd ps)) := by
    rw [List.map_map]
    rfl
  rw [syy, hmap, sum_centered_sq, varNum, meanSnd]
  simp only [List.length_map]
  field_simp
  ring

theorem sxx_nonneg (ps : List (ℚ × ℚ)) : 0 ≤ sxx ps := by
  rw [sxx, sumQ_eq_sum]
  apply List.sum_nonneg
  intro x hx
  rcases List.mem_map.mp hx with ⟨p, -, rfl⟩
  exact mul_self_nonneg _

theorem syy_nonneg (ps : List (ℚ × ℚ)) : 0 ≤ syy ps := by
  rw [syy, sumQ_eq_sum]
  apply List.sum_nonneg
  intro x hx
  rcases List.mem_map.mp hx with ⟨p, -, rfl⟩
  exact mul_self_nonneg _

/-- The variance products on the two sides vanish together. -/
theorem varProd_eq_zero_iff (ps : List (ℚ × ℚ)) (h : ¬(ps.isEmpty = true)) :
    (varNum (ps.map (·.1)) * varNum (ps.map (·.2)) = 0 ↔ sxx ps * syy ps = 0) := by
  have hn := length_ne_zeroQ h
  rw [← n_mul_sxx ps h, ← n_mul_syy ps h]
  constructor
  · intro hz
    rcases mul_eq_zero.mp hz with hz | hz
    · rcases mul_eq_zero.mp hz with hz | hz
      · exact absurd hz hn
      · rw [hz]
        ring
    · rcases mul_eq_zero.mp hz with hz | hz
      · exact absurd hz hn
      · rw [hz]
        ring
  · intro hz
    rcases mul_eq_zero.mp hz with hz | hz
    · rw [hz]
      ring
    · rw [hz]
      ring

/-- On a nonempty pair list, the computational Pearson formula equals the
mean-centered one used by pandas. -/
theorem specPearson_eq_centered (ps : List (ℚ × ℚ)) (h : ¬(ps.isEmpty = true)) :
    specPearson ps =
      ((sxy ps : ℝ)) / (Real.sqrt (sxx ps) * Real.sqrt (syy ps)) := by
  have hn := length_ne_zeroQ h
  have hnR : ((ps.length : ℚ) : ℝ) ≠ 0 := by
    exact_mod_cast hn
  have hnnR : (0 : ℝ) ≤ ((ps.length : ℚ) : ℝ) := by
    have : (0 : ℚ) ≤ (ps.length : ℚ) := by positivity
    exact_mod_cast this
  rw [specPearson, ← n_mul_sxy ps h, ← n_mul_sxx ps h, ← n_mul_syy ps h]
  push_cast
  rw [show ((ps.length : ℝ)) * (sxx ps : ℝ) * ((ps.length : ℝ) * (syy ps : ℝ))
      = ((ps.length : ℝ) * (ps.length : ℝ)) * ((sxx ps : ℝ) * (syy ps : ℝ)) by ring]
  rw [Real.sqrt_mul (by positivity), Real.sqrt_mul_self (by exact_mod_cast hnnR)]
  rw [Real.sqrt_mul (by exact_mod_cast sxx_nonneg ps)]
  rw [mul_div_mul_left _ _ (by exact_mod_cast hn)]
theorem round6_zero : round6 0 = 0 := by
  simp only [round6]
  norm_num

/-- Reduction of the correlation branch on a present table. -/
theorem applyRule_corr_some (png : PlotSpec → List ℕ) (d : DF) :
    applyRule png RuleTag.corr (some d) =
      (if (d.hasName "Rank" && d.hasName "Peak") = true then
        (if (rankPeakSub d).isEmpty = true then ((.ok (.afloat 0)), 0)
         else match seriesCorr (rankPeakSub d) with
           | some r => ((.ok (.afloat (round6 r))), 0)
           | none => ((.ok (.afloat (round6 0))), 0))
      else ((.ok (.afloat 0)), 0)) := rfl

/-- **C8**. On a canonical table (numeric `Rank` and `Peak` columns) the
Correlation answerer never raises: it returns float 0.0 when either column is
absent; drops incomplete rows and returns 0.0 when nothing remains or the
Pearson coefficient is undefined (zero variance in either column); and
otherwise returns the Pearson correlation of `Rank` and `Peak` (computational
form) rounded to 6 decimal places. -/
theorem c8_correlation_rounded (png : PlotSpec → List ℕ) (d : DF)
    (hr : colNumeric d "Rank") (hp : colNumeric d "Peak") :
    applyRule png RuleTag.corr (some d) =
      (.ok (.afloat (if (d.hasName "Rank" && d.hasName "Peak") = true
        then specCorrValue ((d.getCol? "Rank").getD []) ((d.getCol? "Peak").getD [])
        else 0)), 0) := by
  rw [applyRule_corr_some]
  by_cases hcols : (d.hasName "Rank" && d.hasName "Peak") = true
  · rw [if_pos hcols, if_pos hcols]
    have hspec : specCorrValue ((d.getCol? "Rank").getD []) ((d.getCol? "Peak").getD []) =
        (if (rankPeakSub d).isEmpty = true then (0 : ℝ)
         else if varNum ((rankPeakSub d).map (·.1)) *
             varNum ((rankPeakSub d).map (·.2)) = 0 then 0
         else round6 (specPearson (rankPeakSub d))) := rfl
    rw [hspec]
    by_cases hemp : (rankPeakSub d).isEmpty = true
    · rw [if_pos hemp, if_pos hemp]
    · rw [if_neg hemp, if_neg hemp]
      simp only [seriesCorr]
      by_cases hvar : sxx (rankPeakSub d) * syy (rankPeakSub d) = 0
      · rw [if_pos hvar, if_pos ((varProd_eq_zero_iff _ hemp).mpr hvar)]
        show ((Except.ok (Answer.afloat (round6 0)) : Except String Answer), 0) =
          ((Except.ok (Answer.afloat 0) : Except String Answer), 0)
        rw [round6_zero]
      · rw [if_neg hvar,
          if_neg (fun hz => hvar ((varProd_eq_zero_iff _ hemp).mp hz))]
        show ((Except.ok (Answer.afloat (round6 ((sxy (rankPeakSub d) : ℝ) /
            (Real.sqrt (sxx (rankPeakSub d)) * Real.sqrt (syy (rankPeakSub d)))))) :
              Except String Answer), 0) =
          ((Except.ok (Answer.afloat (round6 (specPearson (rankPeakSub d)))) :
              Except String Answer), 0)
        rw [specPearson_eq_centered _ hemp]
  · rw [if_neg hcols, if_neg hcols]

/-- The spec's example table for the Correlation answerer:
`Rank`=[1,2,3], `Peak`=[1,2,3]. -/
def dfCorr : DF :=
  ⟨[("Rank", [.num 1, .num 2, .num 3]), ("Peak", [.num 1, .num 2, .num 3])]⟩

/-- Witness for C8 at the spec's example table: both columns are numeric and
present, and the answer is the rounded Pearson coefficient, with no
exception and no leaked figure. -/
theorem c8_correlation_rounded_witness :
    colNumeric dfCorr "Rank" ∧ colNumeric dfCorr "Peak" ∧
    applyRule pngNull RuleTag.corr (some dfCorr) =
      (.ok (.afloat (specCorrValue ((dfCorr.getCol? "Rank").getD [])
        ((dfCorr.getCol? "Peak").getD []))), 0) := by
  refine ⟨by decide, by decide, ?_⟩
  rw [c8_correlation_rounded pngNull dfCorr (by decide) (by decide)]
  rw [if_pos (by decide)]
/-! ## C4 — idempotence of normalization -/

theorem dropWhile_idem (p : Char → Bool) (l : List Char) :
    (l.dropWhile p).dropWhile p = l.dropWhile p := by
  cases h : l.dropWhile p with
  | nil => rfl
  | cons b t =>
      rw [List.dropWhile_cons, if_neg (by simp [dropWhile_head_false h])]

theorem trimEnd_prefix (l : List Char) : trimEnd l <+: l := by
  rw [trimEnd]
  have h := List.dropWhile_suffix (l := l.reverse) isPySpace
  have h2 := List.reverse_prefix.mpr h
  simpa using h2

theorem trimStart_trimEnd_of_clean {u : List Char} (hu : u.dropWhile isPySpace = u) :
    trimStart (trimEnd u) = trimEnd u := by
  rw [trimStart]
  cases h : trimEnd u with
  | nil => rfl
  | cons b t =>
      rcases (h ▸ trimEnd_prefix u) with ⟨r, hr⟩
      have hb : isPySpace b = false := by
        have : u.dropWhile isPySpace = u := hu
        rw [← hr] at this
        cases hpb : isPySpace b with
        | false => rfl
        | true =>
            rw [List.cons_append, List.dropWhile_cons, if_pos hpb] at this
            have hlen := congrArg List.length this
            have hle : (List.dropWhile isPySpace (t ++ r)).length ≤ (t ++ r).length :=
              (List.dropWhile_suffix isPySpace).length_le
            simp only [List.length_cons] at hlen
            omega
      rw [List.dropWhile_cons, if_neg (by simp [hb])]

theorem trimEnd_idem (l : List Char) : trimEnd (trimEnd l) = trimEnd l := by
  unfold trimEnd
  rw [List.reverse_reverse, dropWhile_idem]

theorem pyStripL_idem (cs : List Char) : pyStripL (pyStripL cs) = pyStripL cs := by
  unfold pyStripL
  have h1 : trimStart (trimEnd (trimStart cs)) = trimEnd (trimStart cs) :=
    trimStart_trimEnd_of_clean (dropWhile_idem isPySpace cs)
  rw [h1, trimEnd_idem]

theorem pyStrip_idem (s : String) : pyStrip (pyStrip s) = pyStrip s := by
  show String.mk (pyStripL (String.mk (pyStripL s.data)).data) = String.mk (pyStripL s.data)
  rw [show (String.mk (pyStripL s.data)).data = pyStripL s.data from rfl, pyStripL_idem]
/-- All column names of the table are fixed points of `str.strip`. -/
def namesStripped (d : DF) : Prop := ∀ c ∈ d.cols, pyStrip c.1 = c.1

theorem namesStripped_stripNames (d : DF) : namesStripped (stripNames d) := by
  intro c hc
  rcases List.mem_map.mp hc with ⟨a, -, rfl⟩
  exact pyStrip_idem a.1

theorem stripNames_of_namesStripped {d : DF} (h : namesStripped d) :
    stripNames d = d := by
  rw [stripNames]
  cases d with
  | mk cols =>
      congr 1
      have : ∀ c ∈ cols, (fun c => (pyStrip c.1, c.2)) c = id c := by
        intro c hc
        have := h c hc
        simp [this]
      rw [List.map_congr_left this, List.map_id]

theorem namesStripped_rename {d : DF} (h : namesStripped d) (g : String) :
    namesStripped (renameCols d g "Gross") := by
  intro c hc
  rcases List.mem_map.mp hc with ⟨a, ha, rfl⟩
  by_cases hg : a.1 = g
  · rw [if_pos hg]
    exact (by decide : pyStrip "Gross" = "Gross")
  · rw [if_neg hg]
    exact h a ha

theorem namesStripped_alias {d : DF} (h : namesStripped d) :
    namesStripped (aliasGross d) := by
  rw [aliasGross]
  cases gross_aliases.find? (fun a => d.hasName a) with
  | none => exact h
  | some g =>
      show namesStripped (if d.hasName "Gross" = true then d else renameCols d g "Gross")
      by_cases hG : d.hasName "Gross" = true
      · rw [if_pos hG]
        exact h
      · rw [if_neg hG]
        exact namesStripped_rename h g

theorem namesStripped_setCol {d : DF} (h : namesStripped d) (n : String)
    (hn : pyStrip n = n) (cells : List Cell) :
    namesStripped (d.setCol n cells) := by
  rw [DF.setCol]
  by_cases hh : d.hasName n = true
  · rw [if_pos hh]
    intro c hc
    rcases List.mem_map.mp hc with ⟨a, ha, rfl⟩
    by_cases hg : a.1 = n
    · rw [if_pos hg]
      exact h a ha
    · rw [if_neg hg]
      exact h a ha
  · rw [if_neg hh]
    intro c hc
    rcases List.mem_append.mp hc with hc | hc
    · exact h c hc
    · rcases List.mem_singleton.mp hc with rfl
      exact hn

theorem namesStripped_derive {d : DF} (h : namesStripped d) :
    namesStripped (deriveGrossNum d) := by
  rw [deriveGrossNum]
  cases d.getCol? "Gross" with
  | none => exact h
  | some gl => exact namesStripped_setCol h "GrossNum" (by decide) _

theorem namesStripped_coerce {d : DF} (h : namesStripped d) :
    namesStripped (coerceYRP d) := by
  intro c hc
  rcases List.mem_map.mp hc with ⟨a, ha, rfl⟩
  by_cases hy : (a.1 = "Year" || a.1 = "Rank" || a.1 = "Peak") = true
  · rw [if_pos hy]
    exact h a ha
  · rw [if_neg hy]
    exact h a ha

theorem namesStripped_normalizeSteps (d : DF) :
    namesStripped (normalizeSteps d) :=
  namesStripped_coerce (namesStripped_derive (namesStripped_alias
    (namesStripped_stripNames d)))
theorem hasName_coerce (d : DF) (x : String) :
    (coerceYRP d).hasName x = d.hasName x := by
  rw [coerceYRP, DF.hasName, DF.hasName]
  induction d.cols with
  | nil => rfl
  | cons a l ih =>
      rw [List.map_cons, List.any_cons, List.any_cons, ih]
      by_cases hy : (a.1 = "Year" || a.1 = "Rank" || a.1 = "Peak") = true
      · rw [if_pos hy]
      · rw [if_neg hy]

theorem hasName_setCol_ne' (d : DF) (n x : String) (cells : List Cell)
    (h : ¬(x = n)) : (d.setCol n cells).hasName x = d.hasName x := by
  rw [DF.setCol]
  by_cases hh : d.hasName n = true
  · rw [if_pos hh, DF.hasName, DF.hasName]
    induction d.cols with
    | nil => rfl
    | cons a l ih =>
        rw [List.map_cons, List.any_cons, List.any_cons, ih]
        by_cases hg : a.1 = n
        · rw [if_pos hg]
        · rw [if_neg hg]
  · rw [if_neg hh, DF.hasName, DF.hasName, List.any_append]
    have : [(n, cells)].any (fun c => c.1 = x) = false := by
      simp only [List.any_cons, List.any_nil, Bool.or_false]
      simpa using fun he => h he.symm
    rw [this, Bool.or_false]

theorem hasName_setCol_self (d : DF) (n : String) (cells : List Cell) :
    (d.setCol n cells).hasName n = true := by
  rw [DF.setCol]
  by_cases hh : d.hasName n = true
  · rw [if_pos hh]
    rw [DF.hasName, List.any_eq_true] at hh ⊢
    rcases hh with ⟨c, hc, hcn⟩
    refine ⟨(if c.1 = n then (c.1, cells) else c), List.mem_map_of_mem _ hc, ?_⟩
    rw [if_pos (by simpa using hcn)]
    exact hcn
  · rw [if_neg hh]
    rw [DF.hasName, List.any_eq_true]
    exact ⟨(n, cells), List.mem_append_right _ (by simp), by simp⟩

theorem hasName_derive (d : DF) (x : String) (h : ¬(x = "GrossNum")) :
    (deriveGrossNum d).hasName x = d.hasName x := by
  rw [deriveGrossNum]
  cases d.getCol? "Gross" with
  | none => rfl
  | some gl =>
      show (d.setCol "GrossNum" (gl.map parse_gross)).hasName x = d.hasName x
      exact hasName_setCol_ne' d "GrossNum" x _ h

theorem hasName_rename_new (d : DF) (g n' : String) (h : d.hasName g = true) :
    (renameCols d g n').hasName n' = true := by
  rw [DF.hasName, List.any_eq_true] at h ⊢
  rcases h with ⟨c, hc, hcg⟩
  refine ⟨(n', c.2), ?_, by simp⟩
  rw [renameCols]
  have : (n', c.2) = (if c.1 = g then (n', c.2) else c) := by
    rw [if_pos (by simpa using hcg)]
  rw [this]
  exact List.mem_map_of_mem _ hc

/-- Any gross alias present in the output of `aliasGross` forces a `Gross`
column to be present as well. -/
theorem aliasGross_invariant (d : DF) (a : String) (ha : a ∈ gross_aliases)
    (hname : (aliasGross d).hasName a = true) :
    (aliasGross d).hasName "Gross" = true := by
  rw [aliasGross] at hname ⊢
  cases hf : gross_aliases.find? (fun al => d.hasName al) with
  | none =>
      rw [hf] at hname
      have := List.find?_eq_none.mp hf a ha
      exact absurd hname (by simpa using this)
  | some g =>
      have hg : d.hasName g = true := by
        have := List.find?_some hf
        simpa using this
      show (if d.hasName "Gross" = true then d else renameCols d g "Gross").hasName "Gross" = true
      by_cases hG : d.hasName "Gross" = true
      · rw [if_pos hG]
        exact hG
      · rw [if_neg hG]
        exact hasName_rename_new d g "Gross" hg

/-- `aliasGross` is the identity as soon as a `Gross` column exists. -/
theorem aliasGross_id_of_gross (d : DF) (hG : d.hasName "Gross" = true) :
    aliasGross d = d := by
  rw [aliasGross]
  have hf : gross_aliases.find? (fun al => d.hasName al) = some "Gross" := by
    rw [gross_aliases, List.find?_cons_of_pos _ hG]
  rw [hf]
  show (if d.hasName "Gross" = true then d else renameCols d "Gross" "Gross") = d
  rw [if_pos hG]

/-- `aliasGross` is the identity when no alias is present. -/
theorem aliasGross_id_of_no_alias (d : DF)
    (h : ∀ a ∈ gross_aliases, d.hasName a = false) : aliasGross d = d := by
  rw [aliasGross]
  have hf : gross_aliases.find? (fun al => d.hasName al) = none := by
    rw [List.find?_eq_none]
    intro a ha
    simp [h a ha]
  rw [hf]
/-- The second pass's aliasing step is a no-op on normalized output. -/
theorem aliasGross_normalizeSteps (d : DF) :
    aliasGross (normalizeSteps d) = normalizeSteps d := by
  by_cases hG : (normalizeSteps d).hasName "Gross" = true
  · exact aliasGross_id_of_gross _ hG
  · apply aliasGross_id_of_no_alias
    intro a ha
    cases hcon : (normalizeSteps d).hasName a with
    | false => rfl
    | true =>
        exfalso
        have hanum : ¬(a = "GrossNum") := by
          simp only [gross_aliases, List.mem_cons, List.not_mem_nil, or_false] at ha
          rcases ha with rfl | rfl | rfl | rfl <;> decide
        have hA : (aliasGross (stripNames d)).hasName a = true := by
          rw [normalizeSteps, hasName_coerce, hasName_derive _ _ hanum] at hcon
          exact hcon
        have hAG := aliasGross_invariant (stripNames d) a ha hA
        apply hG
        rw [normalizeSteps, hasName_coerce, hasName_derive _ _ (by decide)]
        exact hAG
/-- Every column named `n` carries exactly the cells `cs`. -/
def allColsEq (d : DF) (n : String) (cs : List Cell) : Prop :=
  ∀ c ∈ d.cols, c.1 = n → c.2 = cs

theorem allColsEq_setCol (d : DF) (n : String) (cs : List Cell) :
    allColsEq (d.setCol n cs) n cs := by
  rw [DF.setCol]
  by_cases hh : d.hasName n = true
  · rw [if_pos hh]
    intro c hc hcn
    rcases List.mem_map.mp hc with ⟨a, -, rfl⟩
    by_cases hg : a.1 = n
    · rw [if_pos hg]
    · rw [if_neg hg] at hcn ⊢
      exact absurd hcn hg
  · rw [if_neg hh]
    intro c hc hcn
    rcases List.mem_append.mp hc with hc | hc
    · exfalso
      rw [DF.hasName] at hh
      exact hh (List.any_eq_true.mpr ⟨c, hc, by simpa using hcn⟩)
    · rcases List.mem_singleton.mp hc with rfl
      rfl

theorem allColsEq_coerce (d : DF) (n : String) (cs : List Cell)
    (hn : ¬(n = "Year") ∧ ¬(n = "Rank") ∧ ¬(n = "Peak"))
    (h : allColsEq d n cs) : allColsEq (coerceYRP d) n cs := by
  intro c hc hcn
  rcases List.mem_map.mp hc with ⟨a, ha, rfl⟩
  by_cases hy : (a.1 = "Year" || a.1 = "Rank" || a.1 = "Peak") = true
  · rw [if_pos hy] at hcn ⊢
    exfalso
    simp only [Bool.or_eq_true, decide_eq_true_eq] at hy
    rcases hy with (hy | hy) | hy
    · exact hn.1 (by rw [← hcn, hy])
    · exact hn.2.1 (by rw [← hcn, hy])
    · exact hn.2.2 (by rw [← hcn, hy])
  · rw [if_neg hy] at hcn ⊢
    exact h a ha hcn

theorem setCol_eq_self (d : DF) (n : String) (cs : List Cell)
    (hh : d.hasName n = true) (h : allColsEq d n cs) : d.setCol n cs = d := by
  rw [DF.setCol, if_pos hh]
  cases d with
  | mk cols =>
      congr 1
      have : ∀ c ∈ cols, (fun c => if c.1 = n then (c.1, cs) else c) c = id c := by
        intro c hc
        by_cases hg : c.1 = n
        · simp only [if_pos hg, id]
          have := h c hc hg
          rw [← this]
        · simp only [if_neg hg, id]
      rw [List.map_congr_left this, List.map_id]

/-- The second pass's `GrossNum` derivation is a no-op on normalized output. -/
theorem derive_normalizeSteps (d : DF) :
    deriveGrossNum (normalizeSteps d) = normalizeSteps d := by
  cases hA : (aliasGross (stripNames d)).getCol? "Gross" with
  | none =>
      have hder1 : deriveGrossNum (aliasGross (stripNames d)) = aliasGross (stripNames d) := by
        unfold deriveGrossNum
        rw [hA]
      have hg : (normalizeSteps d).getCol? "Gross" = none := by
        rw [normalizeSteps, hder1,
          getCol?_coerceYRP _ _ ⟨by decide, by decide, by decide⟩, hA]
      unfold deriveGrossNum
      rw [hg]
  | some gl =>
      have hder1 : deriveGrossNum (aliasGross (stripNames d)) =
          (aliasGross (stripNames d)).setCol "GrossNum" (gl.map parse_gross) := by
        unfold deriveGrossNum
        rw [hA]
      have hN : normalizeSteps d =
          coerceYRP ((aliasGross (stripNames d)).setCol "GrossNum" (gl.map parse_gross)) := by
        rw [normalizeSteps, hder1]
      have hg : (normalizeSteps d).getCol? "Gross" = some gl := by
        rw [hN, getCol?_coerceYRP _ _ ⟨by decide, by decide, by decide⟩,
          getCol?_setCol_ne _ _ _ _ (by decide), hA]
      have hall : allColsEq (normalizeSteps d) "GrossNum" (gl.map parse_gross) := by
        rw [hN]
        exact allColsEq_coerce _ _ _ ⟨by decide, by decide, by decide⟩
          (allColsEq_setCol _ _ _)
      have hhas : (normalizeSteps d).hasName "GrossNum" = true := by
        rw [hN, hasName_coerce]
        exact hasName_setCol_self _ _ _
      unfold deriveGrossNum
      rw [hg]
      exact setCol_eq_self _ _ _ hhas hall
theorem toNumericCell_numeric (x : Cell) : cellNumeric (toNumericCell x) = true := by
  cases x with
  | num q => rfl
  | nan => rfl
  | str s =>
      simp only [toNumericCell]
      split
      · split <;> rfl
      · split <;> rfl
      · split <;> rfl

theorem toNumericCell_id (x : Cell) (h : cellNumeric x = true) :
    toNumericCell x = x := by
  cases x with
  | num q => rfl
  | nan => rfl
  | str s => exact absurd h (by simp [cellNumeric])

theorem toNumericCell_idem (x : Cell) :
    toNumericCell (toNumericCell x) = toNumericCell x :=
  toNumericCell_id _ (toNumericCell_numeric x)

/-- The numeric coercion pass is idempotent. -/
theorem coerce_coerce (d : DF) : coerceYRP (coerceYRP d) = coerceYRP d := by
  cases d with
  | mk cols =>
      show DF.mk ((cols.map _).map _) = DF.mk (cols.map _)
      congr 1
      rw [List.map_map]
      apply List.map_congr_left
      intro a _
      by_cases hy : (a.1 = "Year" || a.1 = "Rank" || a.1 = "Peak") = true
      · simp only [Function.comp_apply, if_pos hy]
        congr 1
        rw [List.map_map]
        exact List.map_congr_left (fun x _ => toNumericCell_idem x)
      · simp only [Function.comp_apply, if_neg hy]

/-- The normalization body is idempotent. -/
theorem normalizeSteps_idem (d : DF) :
    normalizeSteps (normalizeSteps d) = normalizeSteps d := by
  conv_lhs => rw [normalizeSteps]
  rw [stripNames_of_namesStripped (namesStripped_normalizeSteps d),
    aliasGross_normalizeSteps d, derive_normalizeSteps d]
  conv_lhs => rw [normalizeSteps]
  rw [coerce_coerce]
  conv_rhs => rw [normalizeSteps]
theorem nRows_stripNames (d : DF) : (stripNames d).nRows = d.nRows := by
  cases d with
  | mk cols =>
      cases cols with
      | nil => rfl
      | cons a t => rfl

theorem uniform_stripNames {d : DF} (h : d.uniform) : (stripNames d).uniform := by
  intro c hc
  rcases List.mem_map.mp hc with ⟨a, ha, rfl⟩
  rw [nRows_stripNames]
  exact h a ha

theorem nRows_rename (d : DF) (g n' : String) :
    (renameCols d g n').nRows = d.nRows := by
  cases d with
  | mk cols =>
      cases cols with
      | nil => rfl
      | cons a t =>
          show (if a.1 = g then (n', a.2) else a).2.length = a.2.length
          by_cases hg : a.1 = g
          · rw [if_pos hg]
          · rw [if_neg hg]

theorem uniform_rename {d : DF} (h : d.uniform) (g n' : String) :
    (renameCols d g n').uniform := by
  intro c hc
  rcases List.mem_map.mp hc with ⟨a, ha, rfl⟩
  rw [nRows_rename]
  by_cases hg : a.1 = g
  · rw [if_pos hg]
    exact h a ha
  · rw [if_neg hg]
    exact h a ha

theorem alias_cases (d : DF) :
    aliasGross d = d ∨ ∃ g, aliasGross d = renameCols d g "Gross" := by
  rw [aliasGross]
  cases gross_aliases.find? (fun a => d.hasName a) with
  | none => exact Or.inl rfl
  | some g =>
      show (if d.hasName "Gross" = true then d else renameCols d g "Gross") = d ∨
        ∃ g', (if d.hasName "Gross" = true then d else renameCols d g "Gross") =
          renameCols d g' "Gross"
      by_cases hG : d.hasName "Gross" = true
      · rw [if_pos hG]
        exact Or.inl rfl
      · rw [if_neg hG]
        exact Or.inr ⟨g, rfl⟩

theorem nRows_alias (d : DF) : (aliasGross d).nRows = d.nRows := by
  rcases alias_cases d with h | ⟨g, h⟩
  · rw [h]
  · rw [h, nRows_rename]

theorem uniform_alias {d : DF} (h : d.uniform) : (aliasGross d).uniform := by
  rcases alias_cases d with ha | ⟨g, ha⟩
  · rw [ha]
    exact h
  · rw [ha]
    exact uniform_rename h g "Gross"

theorem getCol?_length {d : DF} (h : d.uniform) {n : String} {gl : List Cell}
    (hg : d.getCol? n = some gl) : gl.length = d.nRows := by
  rw [DF.getCol?] at hg
  cases hf : d.cols.find? (fun c => c.1 = n) with
  | none =>
      rw [hf] at hg
      cases hg
  | some c =>
      rw [hf] at hg
      have hc : c ∈ d.cols := List.mem_of_find?_eq_some hf
      have hcc : c.2 = gl := by
        injection hg
      rw [← hcc]
      exact h c hc

theorem nRows_derive {d : DF} (h : d.uniform) (hne : ¬(d.cols = [])) :
    (deriveGrossNum d).nRows = d.nRows ∧ ¬((deriveGrossNum d).cols = []) := by
  unfold deriveGrossNum
  cases hA : d.getCol? "Gross" with
  | none => exact ⟨rfl, hne⟩
  | some gl =>
      have hlen : gl.length = d.nRows := getCol?_length h hA
      show ((d.setCol "GrossNum" (gl.map parse_gross)).nRows = d.nRows ∧
        ¬((d.setCol "GrossNum" (gl.map parse_gross)).cols = []))
      rw [DF.setCol]
      by_cases hh : d.hasName "GrossNum" = true
      · rw [if_pos hh]
        cases d with
        | mk cols =>
            cases cols with
            | nil => exact absurd rfl hne
            | cons a t =>
                refine ⟨?_, by simp⟩
                show (if a.1 = "GrossNum" then (a.1, gl.map parse_gross) else a).2.length
                  = a.2.length
                by_cases hg : a.1 = "GrossNum"
                · rw [if_pos hg]
                  show (gl.map parse_gross).length = a.2.length
                  rw [List.length_map, hlen]
                  rfl
                · rw [if_neg hg]
      · rw [if_neg hh]
        cases d with
        | mk cols =>
            cases cols with
            | nil => exact absurd rfl hne
            | cons a t => exact ⟨rfl, by simp⟩

theorem nRows_coerce (d : DF) : (coerceYRP d).nRows = d.nRows := by
  cases d with
  | mk cols =>
      cases cols with
      | nil => rfl
      | cons a t =>
          show (if (a.1 = "Year" || a.1 = "Rank" || a.1 = "Peak") = true
            then (a.1, a.2.map toNumericCell) else a).2.length = a.2.length
          by_cases hy : (a.1 = "Year" || a.1 = "Rank" || a.1 = "Peak") = true
          · rw [if_pos hy]
            exact List.length_map _ _
          · rw [if_neg hy]

theorem emptyDF_false_iff (d : DF) :
    d.emptyDF = false ↔ ¬(d.cols = []) ∧ ¬(d.nRows = 0) := by
  rw [DF.emptyDF]
  simp [List.isEmpty_iff]

/-- Normalizing a uniform non-empty table yields a non-empty table. -/
theorem emptyDF_normalizeSteps {d : DF} (hu : d.uniform) (he : d.emptyDF = false) :
    (normalizeSteps d).emptyDF = false := by
  rcases (emptyDF_false_iff d).mp he with ⟨hc, hr⟩
  have hu2 : (aliasGross (stripNames d)).uniform := uniform_alias (uniform_stripNames hu)
  have hc1 : ¬((stripNames d).cols = []) := by
    intro h0
    exact hc (List.map_eq_nil_iff.mp h0)
  have hc2 : ¬((aliasGross (stripNames d)).cols = []) := by
    rcases alias_cases (stripNames d) with ha | ⟨g, ha⟩
    · rw [ha]
      exact hc1
    · rw [ha]
      intro h0
      exact hc1 (List.map_eq_nil_iff.mp h0)
  rcases nRows_derive hu2 hc2 with ⟨hd1, hd2⟩
  rw [emptyDF_false_iff]
  constructor
  · show ¬((coerceYRP (deriveGrossNum (aliasGross (stripNames d)))).cols = [])
    intro h0
    exact hd2 (List.map_eq_nil_iff.mp h0)
  · show ¬((coerceYRP (deriveGrossNum (aliasGross (stripNames d)))).nRows = 0)
    rw [nRows_coerce, hd1, nRows_alias, nRows_stripNames]
    exact hr

/-- **C4**. Normalization is idempotent: on any absent, empty or rectangular
input table, applying `_normalize_df` to its own output returns that output
unchanged (renaming and `GrossNum`/numeric derivation are no-ops on an
already-canonical table). -/
theorem c4_normalize_idempotent (df : Option DF)
    (h : ∀ d : DF, df = some d → d.uniform) :
    _normalize_df (_normalize_df df) = _normalize_df df := by
  cases df with
  | none => rfl
  | some d =>
      rw [_normalize_df]
      by_cases he : d.emptyDF = true
      · rw [if_pos he]
        rfl
      · rw [if_neg he]
        have hne : (normalizeSteps d).emptyDF = false :=
          emptyDF_normalizeSteps (h d rfl) (by simpa using he)
        rw [_normalize_df, if_neg (by simp [hne]), normalizeSteps_idem]

/-- A raw scraped table: rectangular, with a padded gross alias column and a
textual year. -/
def dfRaw : DF :=
  ⟨[("Rank", [.num 1]), (" Worldwide gross ", [.str "$100"]), ("Year", [.str "2001"])]⟩

/-- Witness for C4: the concrete raw table is rectangular and normalizing its
normalization changes nothing. -/
theorem c4_normalize_idempotent_witness :
    dfRaw.uniform ∧
    _normalize_df (_normalize_df (some dfRaw)) = _normalize_df (some dfRaw) :=
  ⟨by decide,
    c4_normalize_idempotent (some dfRaw)
      (fun d hd => by cases hd; exact (by decide : dfRaw.uniform))⟩
